import Mathlib

set_option maxRecDepth 16384
set_option maxHeartbeats 2000000

deriving instance DecidableEq for Except

/-!
Shallow embedding of the math-compiler pipeline (skx/math-compiler).

The embedding follows the Go sources:
  * `token/token.go`    — token kinds (plain strings, as in the source) and
    the keyword table;
  * `lexer/lexer.go`    — the hand-written lexer.  The Go `Lexer` struct keeps
    `position`, `readPosition` and a cached `ch`; immediately after `New` (and
    after every `readChar`) they satisfy `readPosition = position + 1` and
    `ch = characters[position]` (or the NUL rune past the end).  We therefore
    represent a lexer state by the list of characters from the current
    position on: `readChar` drops the head, the current character is the head
    (NUL when empty) and `peekChar` is the second element;
  * `instructions/instructions.go` — the instruction model and the code
    generator (one text block per instruction kind);
  * `compiler/compiler.go` — tokenize / validate, `makeinternalform`,
    `output` and `Compile`.

Go iterates the constant map `c.constants` in an unspecified order when the
header is produced, so `output` and `Compile` take the enumeration order of
the constant pool as an explicit parameter; a legal Go execution corresponds
to any permutation of the set of collected constants.
-/

namespace MathCompiler

/-! ## token package -/

namespace token

/-- TokenType is a string (token/token.go). -/
abbrev TokenType := String

/-- Token struct represents the lexer token (token/token.go: fields `Type`,
`Literal`; `Type` is renamed `typ` because `Type` is a Lean keyword). -/
structure Token where
  typ : TokenType
  literal : String
  deriving DecidableEq, Repr

def EOF : TokenType := "EOF"

def ERROR : TokenType := "ERROR"

def NUMBER : TokenType := "NUMBER"

def IDENT : TokenType := "IDENT"

def PLUS : TokenType := "+"

def MINUS : TokenType := "-"

def ASTERISK : TokenType := "*"

def SLASH : TokenType := "/"

def MOD : TokenType := "%"

def POWER : TokenType := "^"

def FACTORIAL : TokenType := "!"

def E : TokenType := "e"

def PI : TokenType := "pi"

def ABS : TokenType := "abs"

def COS : TokenType := "cos"

def SIN : TokenType := "sin"

def SQRT : TokenType := "sqrt"

def TAN : TokenType := "tan"

def DUP : TokenType := "dup"

def SWAP : TokenType := "swap"

/-- LookupIdentifier: the Go `keywords` map
`abs cos dup e pi sin sqrt swap tan`, looked up by exact key; any identifier
that is not a key maps to ERROR (token/token.go). -/
def LookupIdentifier (identifier : String) : TokenType :=
  if identifier = "abs" then ABS
  else if identifier = "cos" then COS
  else if identifier = "dup" then DUP
  else if identifier = "e" then E
  else if identifier = "pi" then PI
  else if identifier = "sin" then SIN
  else if identifier = "sqrt" then SQRT
  else if identifier = "swap" then SWAP
  else if identifier = "tan" then TAN
  else ERROR

end token

/-! ## lexer package -/

/-- The NUL rune `rune(0)` that the Go lexer reports past the end of input. -/
def NULc : Char := Char.ofNat 0

/-- isWhitespace (lexer/lexer.go). -/
def isWhitespace (ch : Char) : Bool :=
  ch = ' ' || ch = '\t' || ch = '\n' || ch = '\r'

/-- isDigit (lexer/lexer.go): `'0' <= ch && ch <= '9'`. -/
def isDigitGo (ch : Char) : Bool :=
  '0' ≤ ch && ch ≤ '9'

/-- isIdentifier (lexer/lexer.go): any rune that is not a digit, not
whitespace and not the NUL rune. -/
def isIdentifier (ch : Char) : Bool :=
  !isDigitGo ch && !isWhitespace ch && ch ≠ NULc

/-- A lexer state: the characters from the current scan position on
(see the module comment for why this captures the Go struct). -/
abbrev LexState := List Char

/-- The current character `l.ch`: the head of the remaining input, or the
NUL rune when the input is exhausted. -/
def curCh (l : LexState) : Char := l.headD NULc

/-- peekChar (lexer/lexer.go): the character after the current one. -/
def peekCh (l : LexState) : Char := (l.drop 1).headD NULc

/-- skipWhitespace (lexer/lexer.go): drop characters while the current one is
whitespace. -/
def skipWS : LexState → LexState
  | [] => []
  | c :: cs => if isWhitespace c then skipWS cs else c :: cs

/-- readNumber (lexer/lexer.go): consume digits (the source tests membership
of the character in the accept-string `"0123456789"`, which is exactly the
digit-range test `isDigit`) and return them, left to right, with the rest of
the input. -/
def readNum : LexState → String × LexState
  | [] => ("", [])
  | c :: cs =>
    if isDigitGo c then
      let r := readNum cs
      (String.singleton c ++ r.1, r.2)
    else ("", c :: cs)

/-- readIdentifier (lexer/lexer.go): consume characters while they satisfy
`isIdentifier`. -/
def readIdent : LexState → String × LexState
  | [] => ("", [])
  | c :: cs =>
    if isIdentifier c then
      let r := readIdent cs
      (String.singleton c ++ r.1, r.2)
    else ("", c :: cs)

/-- readDecimal (lexer/lexer.go): an integer part, and when the current
character is `'.'` with a digit right after it, a fractional part as well;
yields a NUMBER token. -/
def readDec (l : LexState) : token.Token × LexState :=
  let ri := readNum l
  let integer := ri.1
  let l1 := ri.2
  if curCh l1 = '.' && isDigitGo (peekCh l1) then
    let l2 := l1.drop 1
    let rf := readNum l2
    (⟨token.NUMBER, integer ++ "." ++ rf.1⟩, rf.2)
  else
    (⟨token.NUMBER, integer⟩, l1)

/-- newToken (lexer/lexer.go). -/
def newToken (tokenType : token.TokenType) (ch : Char) : token.Token :=
  ⟨tokenType, String.singleton ch⟩

/-- NextToken (lexer/lexer.go).  The Go switch falls through to a final
`l.readChar()` (here: dropping one character) in every case except the two
`return l.readDecimal()` paths: the single-character operators, the EOF case,
the signed-number branch of `'-'` and the identifier branch all consume one
extra character before returning. -/
def nextTok (l0 : LexState) : token.Token × LexState :=
  let l := skipWS l0
  match l with
  | [] => (⟨token.EOF, ""⟩, [])
  | c :: cs =>
    if c = '+' then (newToken token.PLUS c, cs)
    else if c = '%' then (newToken token.MOD c, cs)
    else if c = '^' then (newToken token.POWER c, cs)
    else if c = '-' then
      -- "-3" is "-3", "-3.4" is "-3.4", but "3 - 4" uses the MINUS token
      if isDigitGo (peekCh (c :: cs)) then
        let r := readDec cs
        (⟨r.1.typ, "-" ++ r.1.literal⟩, r.2.drop 1)
      else (newToken token.MINUS c, cs)
    else if c = '/' then (newToken token.SLASH c, cs)
    else if c = '*' then (newToken token.ASTERISK c, cs)
    else if c = NULc then (⟨token.EOF, ""⟩, cs)
    else if isDigitGo c then readDec (c :: cs)
    else
      let r := readIdent (c :: cs)
      (⟨token.LookupIdentifier r.1, r.1⟩, r.2.drop 1)

/-- Drain the lexer: the sequence of tokens `NextToken` yields before the
first EOF token.  The fuel argument strictly exceeds the number of calls the
loop can make, because every non-EOF token consumes at least one character
(`rawTokens` instantiates it with `length + 1`). -/
def rawTokensF : Nat → LexState → List token.Token
  | 0, _ => []
  | fuel + 1, l =>
    let r := nextTok l
    if r.1.typ = token.EOF then []
    else r.1 :: rawTokensF fuel r.2

/-- The token stream of an input string, up to (excluding) EOF. -/
def rawTokens (input : String) : List token.Token :=
  rawTokensF (input.data.length + 1) input.data


/-! ## instructions package -/

namespace instructions

/-- InstructionType holds the type of the instruction; the Go type is a byte
with a character literal for each tag (instructions/instructions.go). -/
abbrev InstructionType := Char

/-- Push is used to generate code to push a number onto the stack. -/
def Push : InstructionType := 'p'

/-- Plus pops two items and pushes their sum. -/
def Plus : InstructionType := '+'

/-- Minus pops two items and pushes their difference. -/
def Minus : InstructionType := '-'

/-- Multiply pops two items and pushes their product. -/
def Multiply : InstructionType := '*'

/-- Divide pops two items and pushes their quotient. -/
def Divide : InstructionType := '/'

/-- Power pops two items and pushes one raised to the other. -/
def Power : InstructionType := '^'

/-- Modulus pops two items and pushes the remainder. -/
def Modulus : InstructionType := '%'

/-- Abs pops a value and pushes its absolute value. -/
def Abs : InstructionType := 'a'

/-- Sin pops a value and pushes its sine. -/
def Sin : InstructionType := 's'

/-- Cos pops a value and pushes its cosine. -/
def Cos : InstructionType := 'c'

/-- Tan pops a value and pushes its tangent. -/
def Tan : InstructionType := 't'

/-- Sqrt pops a value and pushes its square root. -/
def Sqrt : InstructionType := 'q'

/-- Swap swaps the two topmost stack items. -/
def Swap : InstructionType := 'S'

/-- Dup duplicates the topmost stack value. -/
def Dup : InstructionType := 'D'

/-- Factorial pops a value and pushes its factorial.  The provided sources
contain the FACTORIAL handling of `makeinternalform` and the `genFactorial`
generator but the constant declaration itself fell outside them; any tag
distinct from the others is equivalent, and `'!'` matches the FACTORIAL token
spelling. -/
def Factorial : InstructionType := '!'

/-- Instruction holds a single thing the compiler must generate code for
(instructions/instructions.go: fields `Type` and `Value`; `Type` is renamed
`typ` because `Type` is a Lean keyword).  `Value` is only set when a float is
pushed; Go's zero value for an absent field is the empty string. -/
structure Instruction where
  typ : InstructionType
  value : String := ""
  deriving DecidableEq, Repr

end instructions

/-! ## code generator (instructions.go, `generator` part of package compiler)

The per-instruction code blocks are Go raw-string literals, reproduced
byte-for-byte (a `\\n` inside an emitted `.asciz "..."` is the two-character
escape sequence, exactly as in the raw Go literal).  `genFactorial` and
`genPower` run `strings.Replace(text, "#ID", i, -1)` on a template; we embed
each template as the list of its segments between the `#ID` occurrences, so
the replacement result is their concatenation with the rendered index in
between (the segments contain no further `#ID`).  `genPush` similarly
replaces `#VALUE` and then `#ESCAPED`.
-/

/-- Literal text of the output header up to the constant-pool lines (compiler.go, Compiler.output). -/
def headerPart1 : String :=
  "\n#\n# This assembly file was created by math-compiler.\n#\n# We're going to use Intel Syntax, because that is what I grew up with.\n#\n.intel_syntax noprefix\n.global main\n\n# Data-section:\n#\n# This contains data for the program at run-time.\n#\n#    int: is used to push values onto the stack.\n#\n#      a: used as an argument for functions that require one/two operands.\n#\n#      b: used as an argument for functions that require two operands.\n#\n#  depth: used to keep track of stack-depth.\n#\n#    fmt: Used to output the result of the calculation, later strings are for\n#         various error-reports.\n#\n.data\n          a: .double 0.0\n          b: .double 0.0\n      depth: .double 0.0\n        int: .double 0.0\n\n        fmt: .asciz \"Result %g\\n\"\n   div_zero: .asciz \"Attempted division by zero.  Aborting\\n\"\n   overflow: .asciz \"Overflow - value out of range.  Aborting\\n\"\n  stack_err: .asciz \"Insufficient entries on the stack.  Aborting\\n\"\n stack_full: .asciz \"Too many entries remaining on the stack.  Aborting\\n\"\n"

/-- Literal text of the output header after the constant-pool lines (compiler.go, Compiler.output). -/
def headerPart2 : String :=
  "\n#\n# Main is our entry-point.\n#\n# We'll save rbp before we begin\n#\nmain:\n        push rbp\n\n        # Our stack is initially empty (of numbers), so ensure that [depth]\n        # is set to zero.\n        #\n        # Every time we push a value upon the stack we'll increase this value\n        # and before we pop arguments from the stack we'll check there are\n        # sufficient values stored.  This will prevent segfaults when user\n        # programs are broken.\n        #\n        mov qword ptr [depth], 0\n\n"

/-- Literal text of the output footer: final depth check, print sequence and shared error handlers (compiler.go, Compiler.output). -/
def footerText : String :=
  "\n        # [PRINT]\n        # ensure there is only one remaining argument upon the stack\n        mov rax, qword ptr [depth]\n        cmp rax, 1\n        jne stack_too_full      # should be only one entry.\n        # print the result\n        pop rax\n        mov qword ptr [a], rax\n        lea rdi,fmt             # format string\n        movq xmm0, [a]          # argument\n        movq rax, 1             # argument count\n        call printf\n        pop rbp\n        xor rax,rax\n        ret\n\n\n#\n# This is hit when a division by zero is attempted.\n#\ndivision_by_zero:\n        lea rdi,div_zero\n        jmp print_msg_and_exit\n\n#\n# This is hit when a register is too small to hold a value.\n#\nregister_overflow:\n        lea rdi,overflow\n        jmp print_msg_and_exit\n\n\n#\n# This point is hit when the program is due to terminate, but the\n# stack has too many entries upon it.\n#\nstack_too_full:\n        lea rdi,stack_full\n        jmp print_msg_and_exit\n\n#\n#\n# This point is hit when there are insufficient operands upon the stack for\n# a given operation.  (For example '3 +', or '3 4 + /'.)\n#\nstack_error:\n        lea rdi,stack_err\n        # jmp print_msg_and_exit - JMP is unnecessary here.\n\n#\n# Print a message and terminate.\n#\n# NOTE: We call 'exit' here to allow stdout to be flushed, and also to ensure\n#       we don't need to balance our stack.\n#\nprint_msg_and_exit:\n        xor rax,rax\n        call printf\n        mov rdi,0\n        call exit\n\n"

/-- Code block returned by Compiler.genAbs (instructions.go). -/
def genAbs : String :=
  "\n        # [ABS]\n        # ensure there is at least one argument on the stack\n        mov rax, qword ptr [depth]\n        cmp rax, 1\n        jb stack_error\n\n        # pop one value\n        pop rax\n        mov qword ptr [a], rax\n\n        # abs\n        fld qword ptr [a]\n        fabs\n        fstp qword ptr [a]\n\n        # push result onto stack\n        mov rax, qword ptr [a]\n        push rax\n\n        # stack size didn't change; popped one, pushed one.\n"

/-- Code block returned by Compiler.genCos (instructions.go). -/
def genCos : String :=
  "\n        # [COS]\n        # ensure there is at least one argument on the stack\n        mov rax, qword ptr [depth]\n        cmp rax, 1\n        jb stack_error\n\n        # pop one value\n        pop rax\n        mov qword ptr [a], rax\n\n        # cos\n        fld qword ptr [a]\n        fcos\n        fstp qword ptr [a]\n\n        # push result onto stack\n        mov rax, qword ptr [a]\n        push rax\n\n        # stack size didn't change; popped one, pushed one.\n"

/-- Code block returned by Compiler.genDivide (instructions.go). -/
def genDivideText : String :=
  "\n        # [DIVIDE]\n        # ensure there are at least two arguments on the stack\n        mov rax, qword ptr [depth]\n        cmp rax, 2\n        jb stack_error\n\n        # pop two values\n        pop rax\n        cmp rax,0\n        je division_by_zero\n        mov qword ptr [a], rax\n        pop rax\n        mov qword ptr [b], rax\n\n        # divide\n        fld qword ptr [b]\n        fdiv qword ptr  [a]\n        fstp qword ptr [a]\n\n        # push the result back onto the stack\n        mov rax, qword ptr [a]\n        push rax\n\n        # we took two values from the stack, but added one\n        # so the net result is the stack shrunk by one.\n        dec qword ptr [depth]\n"

/-- Code block returned by Compiler.genDup (instructions.go). -/
def genDup : String :=
  "\n        # [DUP]\n        # ensure there is at least one argument on the stack\n        mov rax, qword ptr [depth]\n        cmp rax, 1\n        jb stack_error\n\n        pop rax\n        push rax\n        push rax\n\n        # We've added a new entry to the stack.\n        inc qword ptr [depth]\n"

/-- Code block returned by Compiler.genMinus (instructions.go). -/
def genMinus : String :=
  "\n        # [MINUS]\n        # ensure there are at least two arguments on the stack\n        mov rax, qword ptr [depth]\n        cmp rax, 2\n        jb stack_error\n\n        # pop two values\n        pop rax\n        mov qword ptr [a], rax\n        pop rax\n        mov qword ptr [b], rax\n\n        # sub\n        fld qword ptr [b]\n        fsub qword ptr  [a]\n        fstp qword ptr [a]\n\n        # push the result back onto the stack\n        mov rax, qword ptr [a]\n        push rax\n\n        # we took two values from the stack, but added one\n        # so the net result is the stack shrunk by one.\n        dec qword ptr [depth]\n"

/-- Code block returned by Compiler.genModulus (instructions.go). -/
def genModulus : String :=
  "\n        # [MODULUS]\n        # ensure there are at least two arguments on the stack\n        mov rax, qword ptr [depth]\n        cmp rax, 2\n        jb stack_error\n\n        # pop two values - rounding both to ints\n        pop rax\n        mov qword ptr [a], rax\n        fld qword ptr [a]\n        frndint\n        fistp qword ptr [a]\n\n        pop rax\n        mov qword ptr [b], rax\n        fld qword ptr [b]\n        frndint\n        fistp qword ptr [b]\n\n        # now we do the modulus-magic.\n        mov rax, qword ptr [b]\n        mov rbx, qword ptr [a]\n        xor rdx, rdx\n        cqo\n        div rbx\n\n        # store the result from 'rdx'.\n        mov qword ptr[a], rdx\n        fild qword ptr [a]\n        fstp qword ptr [a]\n        mov rax, qword ptr [a]\n        push rax\n\n        # we took two values from the stack, but added one\n        # so the net result is the stack shrunk by one.\n        dec qword ptr [depth]\n"

/-- Code block returned by Compiler.genMultiply (instructions.go). -/
def genMultiply : String :=
  "\n        # [MULTIPLY]\n        # ensure there are at least two arguments on the stack\n        mov rax, qword ptr [depth]\n        cmp rax, 2\n        jb stack_error\n\n        # pop two values\n        pop rax\n        mov qword ptr [a], rax\n        pop rax\n        mov qword ptr [b], rax\n\n        # multiply\n        fld qword ptr [a]\n        fmul qword ptr  [b]\n        fstp qword ptr [a]\n\n        # push the result back onto the stack\n        mov rax, qword ptr [a]\n        push rax\n\n        # we took two values from the stack, but added one\n        # so the net result is the stack shrunk by one.\n        dec qword ptr [depth]\n"

/-- Code block returned by Compiler.genPlus (instructions.go). -/
def genPlus : String :=
  "\n        # [PLUS]\n        # ensure there are at least two arguments on the stack\n        mov rax, qword ptr [depth]\n        cmp rax, 2\n        jb stack_error\n\n        # pop two values\n        pop rax\n        mov qword ptr [a], rax\n        pop rax\n        mov qword ptr [b], rax\n\n        # add\n        fld qword ptr [a]\n        fadd qword ptr  [b]\n        fstp qword ptr [a]\n\n        # push the result back onto the stack\n        mov rax, qword ptr [a]\n        push rax\n\n        # we took two values from the stack, but added one\n        # so the net result is the stack shrunk by one.\n        dec qword ptr [depth]\n"

/-- Code block returned by Compiler.genSin (instructions.go). -/
def genSin : String :=
  "\n        # [SIN]\n        # ensure there is at least one argument on the stack\n        mov rax, qword ptr [depth]\n        cmp rax, 1\n        jb stack_error\n\n        # pop one value\n        pop rax\n        mov qword ptr [a], rax\n\n        # sin\n        fld qword ptr [a]\n        fsin\n        fstp qword ptr [a]\n\n        # push result onto stack\n        mov rax, qword ptr [a]\n        push rax\n\n        # stack size didn't change; popped one, pushed one.\n"

/-- Code block returned by Compiler.genSwap (instructions.go). -/
def genSwap : String :=
  "\n        # [SWAP]\n        # ensure there are at least two arguments on the stack\n        mov rax, qword ptr [depth]\n        cmp rax, 2\n        jb stack_error\n\n        pop rax\n        pop rbx\n        push rax\n        push rbx\n        # stack size didn't change; popped two, pushed two.\n"

/-- Code block returned by Compiler.genTan (instructions.go). -/
def genTan : String :=
  "\n        # [TAN]\n        # ensure there is at least one argument on the stack\n        mov rax, qword ptr [depth]\n        cmp rax, 1\n        jb stack_error\n\n        # pop one value\n        pop rax\n        mov qword ptr [a], rax\n\n        # tan\n        fld qword ptr [a]\n        fsincos\n        fdivr %st(0),st(1)\n        fstp qword ptr [a]\n\n        # push result onto stack\n        mov rax, qword ptr [a]\n        push rax\n"

/-- Code block returned by Compiler.genSqrt (instructions.go). -/
def genSqrt : String :=
  "\n        # [SQRT]\n        # ensure there is at least one argument on the stack\n        mov rax, qword ptr [depth]\n        cmp rax, 1\n        jb stack_error\n\n        # pop one value\n        pop rax\n        mov qword ptr [a], rax\n\n        # sqrt\n        fld qword ptr [a]\n        fsqrt\n        fstp qword ptr [a]\n\n        # push result onto stack\n        mov rax, qword ptr [a]\n        push rax\n\n        # stack size didn't change; popped one, pushed one.\n"

/-- Segment 0 of the genFactorial template, split at the occurrences of the placeholder (instructions.go, genFactorial). -/
def factSeg0 : String :=
  "\n        # [FACTORIAL]\n        # ensure there is at least one argument on the stack\n        mov rax, qword ptr [depth]\n        cmp rax, 1\n        jb stack_error\n\n        # pop a value - rounding to an int\n        pop rax\n        mov qword ptr [a], rax\n        fld qword ptr [a]\n        frndint\n        fistp qword ptr [a]\n\n        # get the value in rcx, setup rax to be 1\n        mov rcx, qword ptr [a]\n        mov rax,1\n\n        # If the value is negative, return zero\n        cmp rcx, 0\n        jg again_"

/-- Segment 1 of the genFactorial template, split at the occurrences of the placeholder (instructions.go, genFactorial). -/
def factSeg1 : String :=
  "\n        # jg means jump-if-greater, so if we hit this we had zero/negative\n        # store the result.\n        mov qword ptr[a], 0\n        jmp store_result_"

/-- Segment 2 of the genFactorial template, split at the occurrences of the placeholder (instructions.go, genFactorial). -/
def factSeg2 : String :=
  "\n\nagain_"

/-- Segment 3 of the genFactorial template, split at the occurrences of the placeholder (instructions.go, genFactorial). -/
def factSeg3 : String :=
  ":\n        # rax = rax * rcx\n        imul rax, rcx\n\n        # value too big?\n        jo register_overflow\n\n        dec rcx\n        jnz again_"

/-- Segment 4 of the genFactorial template, split at the occurrences of the placeholder (instructions.go, genFactorial). -/
def factSeg4 : String :=
  "\n\n        # store\n        mov qword ptr[a], rax\n        fild qword ptr [a]\n        fstp qword ptr [a]\n        mov rax, qword ptr [a]\n\nstore_result_"

/-- Segment 5 of the genFactorial template, split at the occurrences of the placeholder (instructions.go, genFactorial). -/
def factSeg5 : String :=
  ":\n        # push result onto stack\n        mov rax, qword ptr [a]\n        push rax\n        # stack size didn't change; popped one, pushed one.\n"

/-- Segment 0 of the genPower template, split at the occurrences of the placeholder (instructions.go, genPower). -/
def powSeg0 : String :=
  "\n        # [POWER]\n        # ensure there are at least two arguments on the stack\n        mov rax, qword ptr [depth]\n        cmp rax, 2\n        jb stack_error\n\n        # pop two values - rounding both to ints\n        pop rax\n        mov qword ptr [a], rax\n        fld qword ptr [a]\n        frndint\n        fistp qword ptr [a]\n\n        pop rax\n        mov qword ptr [b], rax\n        fld qword ptr [b]\n        frndint\n        fistp qword ptr [b]\n\n        # get the two values\n        mov rax, qword ptr [b]\n        mov rbx, qword ptr [a]\n\n        # if the power is 0 we return zero\n        cmp rbx, 0\n        jne none_zero_"

/-- Segment 1 of the genPower template, split at the occurrences of the placeholder (instructions.go, genPower). -/
def powSeg1 : String :=
  "\n           # store zero\n           fldz\n           jmp store_value_"

/-- Segment 2 of the genPower template, split at the occurrences of the placeholder (instructions.go, genPower). -/
def powSeg2 : String :=
  "\n\nnone_zero_"

/-- Segment 3 of the genPower template, split at the occurrences of the placeholder (instructions.go, genPower). -/
def powSeg3 : String :=
  ":\n\n        # if the power is 1 we return the original value\n        cmp rbx, 1\n        jne none_one_"

/-- Segment 4 of the genPower template, split at the occurrences of the placeholder (instructions.go, genPower). -/
def powSeg4 : String :=
  "\n           mov qword ptr[a], rax\n           fild qword ptr [a]\n           jmp store_value_"

/-- Segment 5 of the genPower template, split at the occurrences of the placeholder (instructions.go, genPower). -/
def powSeg5 : String :=
  "\n\nnone_one_"

/-- Segment 6 of the genPower template, split at the occurrences of the placeholder (instructions.go, genPower). -/
def powSeg6 : String :=
  ":\n        # here we have rax having a value\n        # and we have rbx having the power to raise\n        mov rcx, rax   # save the value\n\n        # decrease the power by one.\n        dec rbx\nagain_"

/-- Segment 7 of the genPower template, split at the occurrences of the placeholder (instructions.go, genPower). -/
def powSeg7 : String :=
  ":\n           # rax = rax * rcx (which is the original value we started with)\n           imul rax,rcx\n\n           # value too big?\n           jo register_overflow\n\n           dec rbx\n           jnz again_"

/-- Segment 8 of the genPower template, split at the occurrences of the placeholder (instructions.go, genPower). -/
def powSeg8 : String :=
  "\n\n        mov qword ptr[a], rax\n        fild qword ptr [a]\n\nstore_value_"

/-- Segment 9 of the genPower template, split at the occurrences of the placeholder (instructions.go, genPower). -/
def powSeg9 : String :=
  ":\n\n        fstp qword ptr [a]\n\n        # push the result back onto the stack\n        mov rax, qword ptr [a]\n        push rax\n\n        # we took two values from the stack, but added one\n        # so the net result is the stack shrunk by one.\n        dec qword ptr [depth]\n"

/-- Segment of the genPush template before the value placeholder (instructions.go, genPush). -/
def pushSeg0 : String :=
  "\n        # [PUSH]\n        # Load the value "

/-- Segment of the genPush template between the value and the escaped-symbol placeholders (instructions.go, genPush). -/
def pushSeg1 : String :=
  " onto the stack\n        # Increase the value stored at [depth] to note we've a new stack-entry\n        fld qword ptr "

/-- Segment of the genPush template after the escaped-symbol placeholder (instructions.go, genPush). -/
def pushSeg2 : String :=
  "\n        fstp qword ptr [int]\n        mov rax, qword ptr [int]\n        push rax\n        inc qword ptr [depth]\n"

/-- The assembly text of `genDivide` up to and including the
division-by-zero guard (`cmp rax,0` / `je division_by_zero`): the first part
of `genDivideText`. -/
def divCheckPart : String :=
  "\n        # [DIVIDE]\n        # ensure there are at least two arguments on the stack\n        mov rax, qword ptr [depth]\n        cmp rax, 2\n        jb stack_error\n\n        # pop two values\n        pop rax\n        cmp rax,0\n        je division_by_zero\n"

/-- The assembly text of `genDivide` after the division-by-zero guard: the
actual division and the stack bookkeeping. -/
def divRestPart : String :=
  "        mov qword ptr [a], rax\n        pop rax\n        mov qword ptr [b], rax\n\n        # divide\n        fld qword ptr [b]\n        fdiv qword ptr  [a]\n        fstp qword ptr [a]\n\n        # push the result back onto the stack\n        mov rax, qword ptr [a]\n        push rax\n\n        # we took two values from the stack, but added one\n        # so the net result is the stack shrunk by one.\n        dec qword ptr [depth]\n"

/-- genDivide (instructions.go): the constant code block for Divide. -/
def genDivide : String := genDivideText

/-- Decimal rendering of a natural number, as Go's `fmt.Sprintf("%d", i)`
prints the (non-negative) instruction index.  The fuel argument makes the
recursion structural; `fuel = n + 1` always suffices since `n / 10 < n`. -/
def decCharsF : Nat → Nat → List Char
  | 0, _ => []
  | fuel + 1, n =>
    if n < 10 then [Char.ofNat (48 + n)]
    else decCharsF fuel (n / 10) ++ [Char.ofNat (48 + n % 10)]

/-- Go's `fmt.Sprintf("%d", i)` for a natural index. -/
def goItoa (n : Nat) : String := ⟨decCharsF (n + 1) n⟩

/-- genFactorial (instructions.go): the factorial template with every `#ID`
replaced by the instruction's position index. -/
def genFactorial (i : Nat) : String :=
  factSeg0 ++ goItoa i ++ factSeg1 ++ goItoa i ++ factSeg2 ++ goItoa i ++
    factSeg3 ++ goItoa i ++ factSeg4 ++ goItoa i ++ factSeg5

/-- genPower (instructions.go): the power template with every `#ID` replaced
by the instruction's position index. -/
def genPower (i : Nat) : String :=
  powSeg0 ++ goItoa i ++ powSeg1 ++ goItoa i ++ powSeg2 ++ goItoa i ++
    powSeg3 ++ goItoa i ++ powSeg4 ++ goItoa i ++ powSeg5 ++ goItoa i ++
    powSeg6 ++ goItoa i ++ powSeg7 ++ goItoa i ++ powSeg8 ++ goItoa i ++
    powSeg9

/-! ### escapeConstant -/

/-- Digit characters of a string of the lexer's numeric-literal shape, as an
exact natural number: `digitsVal [c₀, …, cₖ] = Σ (cᵢ - '0')·10^(k-i)`. -/
def digitsVal (l : List Char) : Nat :=
  l.foldl (fun a c => 10 * a + (c.toNat - 48)) 0

/-- Split a character list of the shape `digits+ ['.' digits+]` into its
integer and fractional digits; `none` when the list is not of that shape. -/
def unsignedParts (l : List Char) : Option (List Char × List Char) :=
  let ip := l.takeWhile (fun c => isDigitGo c)
  let rest := l.dropWhile (fun c => isDigitGo c)
  if ip.isEmpty then none
  else
    match rest with
    | [] => some (ip, [])
    | c :: frac =>
      if c = '.' && !frac.isEmpty && frac.all (fun c => isDigitGo c) then
        some (ip, frac)
      else none

/-- Models the sign test `s, _ := strconv.ParseFloat(input, 32); s < 0` of
`escapeConstant` on the decimal literals this compiler feeds it (an optional
minus, digits, an optional fraction — exactly the lexer's NUMBER literals and
the rewritten pi/e literals; these have no exponent or hex forms).
`ParseFloat(s, 32)` rounds to the nearest `float32`; the result is negative
iff the literal has a leading minus and its exact magnitude `v / 10^k`
exceeds half of the smallest positive subnormal, `2^-150` (a magnitude
`≤ 2^-150` rounds to `-0`, and `-0 < 0` is false in Go).  Strings outside
this grammar are treated as non-negative — `ParseFloat` fails on them and the
generator then ignores the error, leaving `s = 0`. -/
def parseFloat32Neg (s : String) : Bool :=
  match s.data with
  | [] => false
  | c :: rest =>
    if c = '-' then
      match unsignedParts rest with
      | some (ip, fp) => 10 ^ fp.length < digitsVal (ip ++ fp) * 2 ^ 150
      | none => false
    else false

/-- escapeConstant (instructions.go): prefix the literal with `const_`
(plus a `neg_` marker when it parses negative), then
`strings.Replace(val, ".", "_", -1)` — replace every `'.'` character — and
`strings.Replace(val, "-", "", -1)` — delete every `'-'` character. -/
def escapeConstant (input : String) : String :=
  let val := if parseFloat32Neg input then "const_neg_" ++ input
             else "const_" ++ input
  let val := String.mk (val.data.map (fun c => if c = '.' then '_' else c))
  String.mk (val.data.filter (fun c => c ≠ '-'))

/-- genPush (instructions.go): the push template with `#VALUE` replaced by
the literal and `#ESCAPED` by its escaped constant symbol. -/
def genPush (value : String) : String :=
  pushSeg0 ++ value ++ pushSeg1 ++ escapeConstant value ++ pushSeg2

/-- `powSeg2` without its trailing `none_zero_` label prefix. -/
def powSeg2a : String :=
  "\n\n"

/-- `powSeg3` without its leading colon. -/
def powSeg3b : String :=
  "\n\n        # if the power is 1 we return the original value\n        cmp rbx, 1\n        jne none_one_"

/-- `powSeg5` without its trailing `none_one_` label prefix. -/
def powSeg5a : String :=
  "\n\n"

/-- `powSeg6` without its leading colon. -/
def powSeg6b : String :=
  "\n        # here we have rax having a value\n        # and we have rbx having the power to raise\n        mov rcx, rax   # save the value\n\n        # decrease the power by one.\n        dec rbx\nagain_"

/-- `powSeg6` without its trailing `again_` label prefix. -/
def powSeg6a : String :=
  ":\n        # here we have rax having a value\n        # and we have rbx having the power to raise\n        mov rcx, rax   # save the value\n\n        # decrease the power by one.\n        dec rbx\n"

/-- `powSeg7` without its leading colon. -/
def powSeg7b : String :=
  "\n           # rax = rax * rcx (which is the original value we started with)\n           imul rax,rcx\n\n           # value too big?\n           jo register_overflow\n\n           dec rbx\n           jnz again_"

/-- `powSeg8` without its trailing `store_value_` label prefix. -/
def powSeg8a : String :=
  "\n\n        mov qword ptr[a], rax\n        fild qword ptr [a]\n\n"

/-- `powSeg9` without its leading colon. -/
def powSeg9b : String :=
  "\n\n        fstp qword ptr [a]\n\n        # push the result back onto the stack\n        mov rax, qword ptr [a]\n        push rax\n\n        # we took two values from the stack, but added one\n        # so the net result is the stack shrunk by one.\n        dec qword ptr [depth]\n"

/-- `factSeg2` without its trailing `again_` label prefix. -/
def factSeg2a : String :=
  "\n\n"

/-- `factSeg3` without its leading colon. -/
def factSeg3b : String :=
  "\n        # rax = rax * rcx\n        imul rax, rcx\n\n        # value too big?\n        jo register_overflow\n\n        dec rcx\n        jnz again_"

/-- `factSeg4` without its trailing `store_result_` label prefix. -/
def factSeg4a : String :=
  "\n\n        # store\n        mov qword ptr[a], rax\n        fild qword ptr [a]\n        fstp qword ptr [a]\n        mov rax, qword ptr [a]\n\n"

/-- `factSeg5` without its leading colon. -/
def factSeg5b : String :=
  "\n        # push result onto stack\n        mov rax, qword ptr [a]\n        push rax\n        # stack size didn't change; popped one, pushed one.\n"

/-! ## compiler package (compiler/compiler.go) -/

/-- Go's `fmt.Sprintf("%f", math.Pi)`: `%f` prints six decimals, so pi
becomes this literal (compiler.go, tokenize). -/
def piLit : String := "3.141593"

/-- Go's `fmt.Sprintf("%f", math.E)`: Euler's number with six decimals
(compiler.go, tokenize). -/
def eLit : String := "2.718282"

/-- The special-case rewrite in the tokenize loop: a PI or E token becomes a
NUMBER token carrying the printed numeric value; all other tokens pass
through unchanged (compiler.go, tokenize). -/
def rewriteTok (t : token.Token) : token.Token :=
  if t.typ = token.PI then ⟨token.NUMBER, piLit⟩
  else if t.typ = token.E then ⟨token.NUMBER, eLit⟩
  else t

/-- The lexing loop of `tokenize` (compiler.go): drain the lexer, break on
EOF, abort on ERROR, rewrite pi/e, append to the collected program.  The fuel
argument strictly exceeds the number of iterations possible (every non-EOF
token consumes at least one character — see `nextTok_progress` /
`tokenizeLoopF_fuel_irrel` below); `tokenize` instantiates it with
`length + 1`, which never runs out. -/
def tokenizeLoopF : Nat → LexState → List token.Token →
    Except String (List token.Token)
  | 0, _, _ => .error "out of fuel"
  | fuel + 1, l, acc =>
    let r := nextTok l
    if r.1.typ = token.EOF then .ok acc
    else if r.1.typ = token.ERROR then
      .error ("Error parsing input; token.ERROR returned from the lexer: "
        ++ r.1.literal)
    else tokenizeLoopF fuel r.2 (acc ++ [rewriteTok r.1])

/-- The structural checks `tokenize` performs after lexing (compiler.go):
the program must be non-empty, must begin with a NUMBER, and — when it has
more than one token — must not end with a NUMBER.  Returns the error, or
`none` when the program passes. -/
def validate (ts : List token.Token) : Option String :=
  match ts with
  | [] => some "The input expression was empty"
  | t0 :: _ =>
    if t0.typ ≠ token.NUMBER then
      some "we expected the program to begin with a numeric thing"
    else if 1 < ts.length then
      match ts.getLast? with
      | some tl =>
        if tl.typ = token.NUMBER then
          some "program ends with a number, which is invalid"
        else none
      | none => none
    else none

/-- tokenize (compiler.go): lex the expression and validate the program
shape; the token list on success, the descriptive error otherwise. -/
def tokenize (expression : String) : Except String (List token.Token) :=
  match tokenizeLoopF (expression.data.length + 1) expression.data [] with
  | .error e => .error e
  | .ok ts =>
    match validate ts with
    | some e => .error e
    | none => .ok ts

/-- One step of `makeinternalform`'s switch (compiler.go): the instruction a
token contributes; token kinds without a case contribute nothing. -/
def instrOfToken (t : token.Token) : Option instructions.Instruction :=
  if t.typ = token.ABS then some ⟨instructions.Abs, ""⟩
  else if t.typ = token.ASTERISK then some ⟨instructions.Multiply, ""⟩
  else if t.typ = token.FACTORIAL then some ⟨instructions.Factorial, ""⟩
  else if t.typ = token.COS then some ⟨instructions.Cos, ""⟩
  else if t.typ = token.DUP then some ⟨instructions.Dup, ""⟩
  else if t.typ = token.NUMBER then some ⟨instructions.Push, t.literal⟩
  else if t.typ = token.MOD then some ⟨instructions.Modulus, ""⟩
  else if t.typ = token.MINUS then some ⟨instructions.Minus, ""⟩
  else if t.typ = token.PLUS then some ⟨instructions.Plus, ""⟩
  else if t.typ = token.POWER then some ⟨instructions.Power, ""⟩
  else if t.typ = token.SIN then some ⟨instructions.Sin, ""⟩
  else if t.typ = token.SLASH then some ⟨instructions.Divide, ""⟩
  else if t.typ = token.SQRT then some ⟨instructions.Sqrt, ""⟩
  else if t.typ = token.SWAP then some ⟨instructions.Swap, ""⟩
  else if t.typ = token.TAN then some ⟨instructions.Tan, ""⟩
  else none

/-- makeinternalform (compiler.go): walk the tokens in order and collect the
instruction each one contributes. -/
def makeinternalform (ts : List token.Token) : List instructions.Instruction :=
  ts.filterMap instrOfToken

/-- The key set of the Go constants map `c.constants` (compiler.go):
`makeinternalform` records `t.Literal` for every NUMBER token.  A Go map
holds each key once; we keep the distinct keys in insertion order (the map
itself is unordered — enumeration order is a parameter of `output`). -/
def constantsOf (ts : List token.Token) : List String :=
  ts.foldl
    (fun acc t =>
      if t.typ = token.NUMBER then
        if acc.contains t.literal then acc else acc ++ [t.literal]
      else acc)
    []

/-- One constant-pool line of the header:
`fmt.Sprintf("%s: .double %s\n", c.escapeConstant(v), v)` (compiler.go,
output). -/
def constLine (v : String) : String :=
  escapeConstant v ++ ": .double " ++ v ++ "\n"

/-- The debug lines `output` appends when the debug flag is set
(compiler.go). -/
def debugLines : String := "        # Debug-break\n        int 03\n"

/-- The code block `output` emits for one instruction, dispatching on its
type exactly as the Go switch does (compiler.go, output); `i` is the
instruction's position index in the instruction list. -/
def genBlockFor (i : Nat) (opr : instructions.Instruction) : String :=
  if opr.typ = instructions.Abs then genAbs
  else if opr.typ = instructions.Cos then genCos
  else if opr.typ = instructions.Divide then genDivide
  else if opr.typ = instructions.Dup then genDup
  else if opr.typ = instructions.Factorial then genFactorial i
  else if opr.typ = instructions.Minus then genMinus
  else if opr.typ = instructions.Modulus then genModulus
  else if opr.typ = instructions.Multiply then genMultiply
  else if opr.typ = instructions.Plus then genPlus
  else if opr.typ = instructions.Power then genPower i
  else if opr.typ = instructions.Push then genPush opr.value
  else if opr.typ = instructions.Sin then genSin
  else if opr.typ = instructions.Sqrt then genSqrt
  else if opr.typ = instructions.Swap then genSwap
  else if opr.typ = instructions.Tan then genTan
  else ""

/-- output (compiler.go): header (fixed part, one line per constant in the
enumeration order handed to us, entry preamble, optional debug break), then
one code block per instruction in program order, then the fixed footer.
`constOrder` stands for the order in which Go's `for v := range c.constants`
happens to enumerate the (unordered) constant map. -/
def output (instrs : List instructions.Instruction) (constOrder : List String)
    (debug : Bool) : String :=
  let header := headerPart1
    ++ String.join (constOrder.map constLine)
    ++ headerPart2
    ++ (if debug then debugLines else "")
  let body := String.join (instrs.enum.map (fun p => genBlockFor p.1 p.2))
  header ++ body ++ footerText

/-- Compile (compiler.go): tokenize (with its validation), build the
internal form, generate the output.  The Go method returns the pair
`(string, error)`: the text and `nil`, or `""` and the error.  `constOrder`
is the map-enumeration order (see `output`) and `debug` the `SetDebug`
flag. -/
def Compile (expression : String) (constOrder : List String) (debug : Bool) :
    String × Option String :=
  match tokenize expression with
  | .error e => ("", some e)
  | .ok ts => (output (makeinternalform ts) constOrder debug, none)

/-- The constant-pool key set a Go run of `Compile expression` builds: what
any legal map-enumeration order is a permutation of. -/
def constantsOfExpr (expression : String) : List String :=
  match tokenize expression with
  | .error _ => []
  | .ok ts => constantsOf ts

/-! ## helper notions used by the statements -/

/-- Whether an `Except` result is a success. -/
def isOkE {ε α : Type} : Except ε α → Bool
  | .ok _ => true
  | .error _ => false

/-- Substring test: `pat` occurs contiguously in `s`. -/
def strContains (s pat : String) : Bool :=
  (List.range (s.data.length + 1)).any
    (fun i => decide ((s.data.drop i).take pat.data.length = pat.data))

/-- A character list of the unsigned numeric-literal shape the lexer's
`readDecimal` produces: one or more digits, optionally followed by `'.'` and
one or more digits. -/
def isUnsignedLit (l : List Char) : Bool :=
  (unsignedParts l).isSome

/-- A lexer-producible NUMBER literal: an unsigned literal, optionally
preceded by the minus sign the `'-'` branch of `NextToken` prepends. -/
def isLexNumLit (s : String) : Bool :=
  match s.data with
  | [] => false
  | c :: rest => if c = '-' then isUnsignedLit rest else isUnsignedLit (c :: rest)

/-- Accumulator pass of `splitLinesC`: `cur` is the current line reversed,
`acc` the finished lines reversed. -/
def splitLinesAux : List Char → List Char → List (List Char) →
    List (List Char)
  | [], cur, acc => (cur.reverse :: acc).reverse
  | c :: cs, cur, acc =>
    if c = '\n' then splitLinesAux cs [] (cur.reverse :: acc)
    else splitLinesAux cs (c :: cur) acc

/-- Split a character list into its newline-separated lines. -/
def splitLinesC (l : List Char) : List (List Char) :=
  splitLinesAux l [] []

/-- The labels a generated code block defines: the lines that end in `':'`
and do not start with indentation or a comment, with the colon stripped. -/
def extractLabelDefs (s : String) : List String :=
  (splitLinesC s.data).filterMap
    (fun line =>
      match line with
      | [] => none
      | c :: _ =>
        if c ≠ ' ' && c ≠ '#' && line.getLast? = some ':' then
          some (String.mk line.dropLast)
        else none)

/-- The labels a Power block at position `i` defines, in order of
definition. -/
def powerLabels (i : Nat) : List String :=
  ["none_zero_" ++ goItoa i, "none_one_" ++ goItoa i,
   "again_" ++ goItoa i, "store_value_" ++ goItoa i]

/-- The labels a Factorial block at position `i` defines, in order of
definition. -/
def factorialLabels (i : Nat) : List String :=
  ["again_" ++ goItoa i, "store_result_" ++ goItoa i]


/-! ## lemmas: lexer progress -/

/-- Dropping one character never lengthens a list. -/
theorem drop_one_length_le (l : List Char) : (l.drop 1).length ≤ l.length := by
  rw [List.length_drop]
  omega

/-- Skipping whitespace never lengthens the remaining input. -/
theorem skipWS_length_le (l : LexState) : (skipWS l).length ≤ l.length := by
  induction l with
  | nil => simp [skipWS]
  | cons c cs ih =>
    by_cases h : isWhitespace c
    · simp only [skipWS, h, if_true]
      exact Nat.le_succ_of_le ih
    · simp [skipWS, h]

/-- After skipping whitespace the current character is not whitespace. -/
theorem skipWS_head (l : LexState) (c : Char) (cs : List Char)
    (h : skipWS l = c :: cs) : isWhitespace c = false := by
  induction l with
  | nil => simp [skipWS] at h
  | cons c' cs' ih =>
    by_cases hw : isWhitespace c'
    · exact ih (by simpa [skipWS, hw] using h)
    · simp only [skipWS, hw, if_false] at h
      cases h
      simpa using hw

/-- `readNumber` never lengthens the remaining input. -/
theorem readNum_snd_le (l : LexState) : (readNum l).2.length ≤ l.length := by
  induction l with
  | nil => simp [readNum]
  | cons c cs ih =>
    by_cases h : isDigitGo c
    · simp only [readNum, h, if_true]
      exact Nat.le_succ_of_le ih
    · simp [readNum, h]

/-- `readIdentifier` never lengthens the remaining input. -/
theorem readIdent_snd_le (l : LexState) : (readIdent l).2.length ≤ l.length := by
  induction l with
  | nil => simp [readIdent]
  | cons c cs ih =>
    by_cases h : isIdentifier c
    · simp only [readIdent, h, if_true]
      exact Nat.le_succ_of_le ih
    · simp [readIdent, h]

/-- `readDecimal` never lengthens the remaining input. -/
theorem readDec_snd_le (l : LexState) : (readDec l).2.length ≤ l.length := by
  unfold readDec
  by_cases h : curCh (readNum l).2 = '.' && isDigitGo (peekCh (readNum l).2)
  · simp only [h, if_true]
    have h1 : (readNum ((readNum l).2.drop 1)).2.length
        ≤ ((readNum l).2.drop 1).length := readNum_snd_le _
    have h2 := drop_one_length_le (readNum l).2
    have h3 := readNum_snd_le l
    omega
  · simpa [h] using readNum_snd_le l

/-- `readDecimal` on a digit strictly shortens the remaining input. -/
theorem readDec_cons_lt (c : Char) (cs : List Char) (h : isDigitGo c) :
    (readDec (c :: cs)).2.length < (c :: cs).length := by
  have h1 : (readDec (c :: cs)).2.length ≤ (readNum (c :: cs)).2.length := by
    unfold readDec
    by_cases hb : curCh (readNum (c :: cs)).2 = '.'
        && isDigitGo (peekCh (readNum (c :: cs)).2)
    · simp only [hb, if_true]
      have h2 : (readNum ((readNum (c :: cs)).2.drop 1)).2.length
          ≤ ((readNum (c :: cs)).2.drop 1).length := readNum_snd_le _
      have h3 := drop_one_length_le (readNum (c :: cs)).2
      omega
    · simp [hb]
  have h2 : (readNum (c :: cs)).2.length ≤ cs.length := by
    simp only [readNum, h, if_true]
    exact readNum_snd_le cs
  simp only [List.length_cons]
  omega

/-- Any token other than EOF consumes at least one input character. -/
theorem nextTok_progress (l : LexState)
    (h : (nextTok l).1.typ ≠ token.EOF) :
    (nextTok l).2.length < l.length := by
  rcases hsk : skipWS l with _ | ⟨c, cs⟩
  · exfalso
    apply h
    simp [nextTok, hsk]
  have hle : cs.length + 1 ≤ l.length := by
    have := skipWS_length_le l
    rw [hsk] at this
    simpa using this
  by_cases h1 : c = '+'
  · subst h1
    simp [nextTok, hsk]
    omega
  by_cases h2 : c = '%'
  · subst h2
    simp [nextTok, hsk]
    omega
  by_cases h3 : c = '^'
  · subst h3
    simp [nextTok, hsk]
    omega
  by_cases h4 : c = '-'
  · subst h4
    by_cases hd : isDigitGo (peekCh ('-' :: cs))
    · simp [nextTok, hsk, hd]
      have ha := readDec_snd_le cs
      have hb := drop_one_length_le (readDec cs).2
      omega
    · simp [nextTok, hsk, hd]
      omega
  by_cases h5 : c = '/'
  · subst h5
    simp [nextTok, hsk]
    omega
  by_cases h6 : c = '*'
  · subst h6
    simp [nextTok, hsk]
    omega
  by_cases h7 : c = NULc
  · exfalso
    apply h
    subst h7
    simp [nextTok, hsk, h1, h2, h3, h4, h5, h6]
  by_cases h8 : isDigitGo c
  · have hlt := readDec_cons_lt c cs h8
    simp only [List.length_cons] at hlt
    simp [nextTok, hsk, h1, h2, h3, h4, h5, h6, h7, h8]
    omega
  · have hid : isIdentifier c = true := by
      have hw := skipWS_head l c cs hsk
      simp [isIdentifier, h8, hw, h7]
    simp [nextTok, hsk, h1, h2, h3, h4, h5, h6, h7, h8]
    have h9 : (readIdent (c :: cs)).2.length ≤ cs.length := by
      simp only [readIdent, hid, if_true]
      exact readIdent_snd_le cs
    have h10 := drop_one_length_le (readIdent (c :: cs)).2
    omega

/-- Two sufficiently large fuels give the tokenize loop the same result: the
loop as run by `tokenize` (fuel `length + 1`) computes the total function
that Go's always-terminating loop computes. -/
theorem tokenizeLoopF_fuel_irrel (f₁ : Nat) : ∀ (f₂ : Nat) (l : LexState)
    (acc : List token.Token), l.length < f₁ → l.length < f₂ →
    tokenizeLoopF f₁ l acc = tokenizeLoopF f₂ l acc := by
  induction f₁ with
  | zero => intro f₂ l acc h1; omega
  | succ f ih =>
    intro f₂ l acc h1 h2
    cases f₂ with
    | zero => omega
    | succ g =>
      simp only [tokenizeLoopF]
      by_cases he : (nextTok l).1.typ = token.EOF
      · simp [he]
      by_cases herr : (nextTok l).1.typ = token.ERROR
      · simp [he, herr]
      · have hp := nextTok_progress l he
        simp only [he, herr, if_false]
        exact ih g (nextTok l).2 (acc ++ [rewriteTok (nextTok l).1])
          (by omega) (by omega)


/-! ## lemmas: the token stream -/

/-- Every token in a successful run of the tokenize loop satisfies any
property enjoyed by all (rewritten) lexer outputs and by the accumulator. -/
theorem tokenizeLoopF_mem (P : token.Token → Prop)
    (hP : ∀ l, P (rewriteTok (nextTok l).1)) :
    ∀ (fuel : Nat) (l : LexState) (acc ts : List token.Token),
      (∀ t ∈ acc, P t) → tokenizeLoopF fuel l acc = .ok ts → ∀ t ∈ ts, P t := by
  intro fuel
  induction fuel with
  | zero => intro l acc ts hacc hrun; simp [tokenizeLoopF] at hrun
  | succ f ih =>
    intro l acc ts hacc hrun
    simp only [tokenizeLoopF] at hrun
    by_cases he : (nextTok l).1.typ = token.EOF
    · rw [if_pos he] at hrun
      simp only [Except.ok.injEq] at hrun
      exact hrun ▸ hacc
    by_cases herr : (nextTok l).1.typ = token.ERROR
    · rw [if_neg he, if_pos herr] at hrun
      simp at hrun
    · rw [if_neg he, if_neg herr] at hrun
      refine ih (nextTok l).2 (acc ++ [rewriteTok (nextTok l).1]) ts ?_ hrun
      intro t ht
      rcases List.mem_append.mp ht with h | h
      · exact hacc t h
      · rcases List.mem_singleton.mp h with rfl
        exact hP l

/-- `validate` either fails or returns its input unchanged, so every token of
a successful `tokenize` satisfies any property enjoyed by all rewritten lexer
outputs. -/
theorem tokenize_mem (P : token.Token → Prop)
    (hP : ∀ l, P (rewriteTok (nextTok l).1))
    (s : String) (ts : List token.Token)
    (hrun : tokenize s = .ok ts) : ∀ t ∈ ts, P t := by
  unfold tokenize at hrun
  split at hrun
  · simp at hrun
  · rename_i ts' hloop
    split at hrun
    · simp at hrun
    · rename_i hval
      simp only [Except.ok.injEq] at hrun
      subst hrun
      exact tokenizeLoopF_mem P hP _ _ [] _ (by simp) hloop

/-- `Compile` depends on the expression only through `tokenize`. -/
theorem Compile_eq_of_tokenize_eq (s₁ s₂ : String) (o : List String)
    (d : Bool) (h : tokenize s₁ = tokenize s₂) :
    Compile s₁ o d = Compile s₂ o d := by
  unfold Compile
  rw [h]

/-- Two token lists with equal kind sequences have last tokens of the same
kind (as options). -/
theorem getLast?_typ_eq (ts ts' : List token.Token)
    (h : ts.map token.Token.typ = ts'.map token.Token.typ) :
    ts.getLast?.map token.Token.typ = ts'.getLast?.map token.Token.typ := by
  rw [← List.getLast?_map, ← List.getLast?_map, h]

/-- `validate` inspects only the kinds of the tokens, never their literals:
two programs with the same kind sequence validate identically. -/
theorem validate_eq_of_map_typ (ts ts' : List token.Token)
    (h : ts.map token.Token.typ = ts'.map token.Token.typ) :
    validate ts = validate ts' := by
  cases ts with
  | nil =>
    cases ts' with
    | nil => rfl
    | cons u us => simp at h
  | cons t rest =>
    cases ts' with
    | nil => simp at h
    | cons u us =>
      simp only [List.map_cons, List.cons.injEq] at h
      obtain ⟨hhead, htail⟩ := h
      have hlen : rest.length = us.length := by
        have := congrArg List.length htail
        simpa using this
      have hlast : (t :: rest).getLast?.map token.Token.typ
          = (u :: us).getLast?.map token.Token.typ := by
        rw [← List.getLast?_map, ← List.getLast?_map]
        simp only [List.map_cons, hhead, htail]
      have hmatch : (match (t :: rest).getLast? with
          | some tl =>
            if tl.typ = token.NUMBER then
              some "program ends with a number, which is invalid"
            else none
          | none => none) =
          (match (u :: us).getLast? with
          | some ul =>
            if ul.typ = token.NUMBER then
              some "program ends with a number, which is invalid"
            else none
          | none => none) := by
        rcases hl : (t :: rest).getLast? with _ | tl <;>
          rcases hl' : (u :: us).getLast? with _ | ul <;>
            rw [hl, hl'] at hlast <;> simp_all
      simp only [validate, hhead, List.length_cons, hlen]
      by_cases h0 : (u.typ = token.NUMBER)
      · simp only [h0, if_true]
        by_cases h1 : 1 < us.length + 1
        · simp only [h1, if_true]
          exact hmatch
        · simp [h1]
      · simp [h0]

/-! ## lemmas: decimal rendering of indices -/

/-- Reading back the digits `decCharsF` produces recovers the number. -/
theorem decCharsF_digitsVal (f : Nat) : ∀ n : Nat, n < f →
    digitsVal (decCharsF f n) = n := by
  induction f with
  | zero => intro n h; omega
  | succ f ih =>
    intro n h
    by_cases h10 : n < 10
    · have hc : (Char.ofNat (48 + n)).toNat = 48 + n := by
        interval_cases n <;> decide
      simp [decCharsF, h10, digitsVal, hc]
    · have hmod : (Char.ofNat (48 + n % 10)).toNat = 48 + n % 10 := by
        have hm : n % 10 < 10 := Nat.mod_lt _ (by omega)
        set m := n % 10 with hm'
        interval_cases m <;> decide
      have hdiv : n / 10 < f := by
        have : n / 10 < n := Nat.div_lt_self (by omega) (by omega)
        omega
      have hih := ih (n / 10) hdiv
      simp only [decCharsF, h10, if_false]
      simp only [digitsVal, List.foldl_append, List.foldl_cons,
        List.foldl_nil] at hih ⊢
      rw [hih, hmod]
      omega

/-- The decimal rendering of indices is injective. -/
theorem goItoa_inj (m n : Nat) (h : goItoa m = goItoa n) : m = n := by
  have hd : decCharsF (m + 1) m = decCharsF (n + 1) n := by
    have := congrArg String.data h
    simpa [goItoa] using this
  have h1 := decCharsF_digitsVal (m + 1) m (by omega)
  have h2 := decCharsF_digitsVal (n + 1) n (by omega)
  rw [hd] at h1
  omega

/-! ## lemmas: string decomposition -/

/-- Two strings with distinct characters at a position inside both prefixes
stay distinct under any suffixes. -/
theorem append_ne_of_nth (p₁ p₂ x y : String) (k : Nat)
    (h₁ : k < p₁.data.length) (h₂ : k < p₂.data.length)
    (hc : p₁.data.getD k ' ' ≠ p₂.data.getD k ' ') :
    p₁ ++ x ≠ p₂ ++ y := by
  intro he
  apply hc
  have hdata := congrArg String.data he
  rw [String.data_append, String.data_append] at hdata
  calc p₁.data.getD k ' ' = (p₁.data ++ x.data).getD k ' ' :=
        (List.getD_append _ _ _ _ h₁).symm
    _ = (p₂.data ++ y.data).getD k ' ' := by rw [hdata]
    _ = p₂.data.getD k ' ' := List.getD_append _ _ _ _ h₂

/-- A common prefix cancels on the left of string append. -/
theorem append_left_inj (p x y : String) (h : p ++ x = p ++ y) : x = y := by
  have hdata := congrArg String.data h
  rw [String.data_append, String.data_append] at hdata
  exact String.ext (List.append_cancel_left hdata)


/-! ## lemmas: escapeConstant -/

/-- The character cleaning `escapeConstant` performs after prefixing:
replace every `'.'` by `'_'`, then delete every `'-'`. -/
def cleanData (l : List Char) : List Char :=
  (l.map (fun c => if c = '.' then '_' else c)).filter (fun c => c ≠ '-')

/-- `escapeConstant` is the chosen prefix followed by the cleaned literal
text (the prefixes contain no `'.'` or `'-'`, so cleaning leaves them
alone). -/
theorem escapeConstant_eq (s : String) : escapeConstant s =
    (if parseFloat32Neg s then "const_neg_" else "const_")
      ++ String.mk (cleanData s.data) := by
  have hmk : ∀ (l : List Char), (String.mk l).data = l := fun _ => rfl
  have hng : ("const_neg_".data.map
      (fun c => if c = '.' then '_' else c)).filter (fun c => c ≠ '-')
      = "const_neg_".data := by decide
  have hps : ("const_".data.map
      (fun c => if c = '.' then '_' else c)).filter (fun c => c ≠ '-')
      = "const_".data := by decide
  by_cases h : parseFloat32Neg s
  · apply String.ext
    simp only [escapeConstant, h, if_true, String.data_append, hmk,
      cleanData, List.map_append, List.filter_append]
    rw [hng]
  · apply String.ext
    have h' : parseFloat32Neg s = false := by simpa using h
    simp only [escapeConstant, h', Bool.false_eq_true, if_false,
      String.data_append, hmk, cleanData, List.map_append,
      List.filter_append]
    rw [hps]

/-- Characters of an unsigned numeric literal: digits or the period. -/
def litCharOK (c : Char) : Prop := isDigitGo c = true ∨ c = '.'

/-- A digit is not the minus sign. -/
theorem digit_ne_minus (c : Char) (h : isDigitGo c = true) : c ≠ '-' := by
  intro he
  subst he
  simp [isDigitGo] at h

/-- A digit is not the period. -/
theorem digit_ne_dot (c : Char) (h : isDigitGo c = true) : c ≠ '.' := by
  intro he
  subst he
  simp [isDigitGo] at h

/-- A digit is not the underscore. -/
theorem digit_ne_underscore (c : Char) (h : isDigitGo c = true) : c ≠ '_' := by
  intro he
  subst he
  simp [isDigitGo] at h

/-- A digit is not the letter `n`. -/
theorem digit_ne_n (c : Char) (h : isDigitGo c = true) : c ≠ 'n' := by
  intro he
  subst he
  simp [isDigitGo] at h

/-- Structure of a successful `unsignedParts` split. -/
theorem unsignedParts_some (l : List Char) (ip fp : List Char)
    (h : unsignedParts l = some (ip, fp)) :
    (l = ip ∧ fp = [] ∨ l = ip ++ '.' :: fp) ∧ ip ≠ [] ∧
      (∀ c ∈ ip, isDigitGo c = true) ∧ (∀ c ∈ fp, isDigitGo c = true) := by
  unfold unsignedParts at h
  by_cases he : (l.takeWhile (fun c => isDigitGo c)).isEmpty
  · simp [he] at h
  have hsplit := List.takeWhile_append_dropWhile
    (p := fun c => isDigitGo c) (l := l)
  have hip : ∀ c ∈ l.takeWhile (fun c => isDigitGo c), isDigitGo c = true :=
    fun c hc => List.mem_takeWhile_imp hc
  simp only [he, if_false, Bool.false_eq_true] at h
  have hne : l.takeWhile (fun c => isDigitGo c) ≠ [] := by
    intro hnil
    rw [hnil] at he
    simp at he
  split at h
  · rename_i hd
    simp only [Option.some.injEq, Prod.mk.injEq] at h
    obtain ⟨h1, h2⟩ := h
    refine ⟨Or.inl ⟨?_, h2.symm⟩, ?_, ?_, by rw [← h2]; simp⟩
    · conv_lhs => rw [← hsplit, hd]
      rw [h1]
      simp
    · rw [← h1]; exact hne
    · rw [← h1]; exact hip
  · rename_i c rest hd
    split at h
    · rename_i hok
      simp only [Option.some.injEq, Prod.mk.injEq] at h
      obtain ⟨h1, h2⟩ := h
      simp only [Bool.and_eq_true, List.all_eq_true, decide_eq_true_eq]
        at hok
      obtain ⟨⟨hdot, _⟩, hall⟩ := hok
      refine ⟨Or.inr ?_, ?_, ?_, ?_⟩
      · conv_lhs => rw [← hsplit, hd]
        rw [h1, h2, hdot]
      · rw [← h1]; exact hne
      · rw [← h1]; exact hip
      · rw [← h2]; exact hall
    · simp at h

/-- The head of an unsigned literal is a digit. -/
theorem unsignedLit_head (l : List Char) (h : isUnsignedLit l = true) :
    ∃ c cs, l = c :: cs ∧ isDigitGo c = true := by
  rw [isUnsignedLit, Option.isSome_iff_exists] at h
  obtain ⟨⟨ip, fp⟩, hp⟩ := h
  obtain ⟨hshape, hne, hip, _⟩ := unsignedParts_some l ip fp hp
  rcases hip' : ip with _ | ⟨c, cs⟩
  · exact absurd hip' hne
  rcases hshape with ⟨h1, _⟩ | h1
  · exact ⟨c, cs, by rw [h1, hip'], hip c (by rw [hip']; simp)⟩
  · refine ⟨c, cs ++ '.' :: fp, ?_, hip c (by rw [hip']; simp)⟩
    rw [h1, hip']
    simp

/-- Every character of an unsigned literal is a digit or the period. -/
theorem unsignedLit_chars (l : List Char) (h : isUnsignedLit l = true) :
    ∀ c ∈ l, litCharOK c := by
  rw [isUnsignedLit, Option.isSome_iff_exists] at h
  obtain ⟨⟨ip, fp⟩, hp⟩ := h
  obtain ⟨hshape, _, hip, hfp⟩ := unsignedParts_some l ip fp hp
  intro c hc
  rcases hshape with ⟨h1, _⟩ | h1
  · exact Or.inl (hip c (h1 ▸ hc))
  · rw [h1] at hc
    rcases List.mem_append.mp hc with h2 | h2
    · exact Or.inl (hip c h2)
    · rcases List.mem_cons.mp h2 with rfl | h3
      · exact Or.inr rfl
      · exact Or.inl (hfp c h3)

/-- Cleaning an unsigned literal only renames its period: nothing is a
minus, so the filter keeps every character. -/
theorem cleanData_lit (l : List Char) (h : ∀ c ∈ l, litCharOK c) :
    cleanData l = l.map (fun c => if c = '.' then '_' else c) := by
  unfold cleanData
  apply List.filter_eq_self.mpr
  intro c hc
  rcases List.mem_map.mp hc with ⟨c', hc', rfl⟩
  rcases h c' hc' with hd | hd
  · have := digit_ne_minus c' hd
    have hd2 := digit_ne_dot c' hd
    simp [hd2, this]
  · subst hd
    simp

/-- Two unsigned literals with the same period-renamed text are equal. -/
theorem mapDot_inj (l₁ l₂ : List Char) (h₁ : ∀ c ∈ l₁, litCharOK c)
    (h₂ : ∀ c ∈ l₂, litCharOK c)
    (h : l₁.map (fun c => if c = '.' then '_' else c)
       = l₂.map (fun c => if c = '.' then '_' else c)) : l₁ = l₂ := by
  have hround : ∀ (l : List Char), (∀ c ∈ l, litCharOK c) →
      (l.map (fun c => if c = '.' then '_' else c)).map
        (fun c => if c = '_' then '.' else c) = l := by
    intro l hl
    rw [List.map_map]
    have : ∀ c ∈ l, ((fun c => if c = '_' then '.' else c) ∘
        (fun c => if c = '.' then '_' else c)) c = id c := by
      intro c hc
      rcases hl c hc with hd | hd
      · have ha := digit_ne_dot c hd
        have hb := digit_ne_underscore c hd
        simp [Function.comp, ha, hb]
      · subst hd
        simp [Function.comp]
    rw [List.map_congr_left this, List.map_id]
  calc l₁ = (l₁.map _).map (fun c => if c = '_' then '.' else c) :=
        (hround l₁ h₁).symm
    _ = (l₂.map _).map (fun c => if c = '_' then '.' else c) := by rw [h]
    _ = l₂ := hround l₂ h₂

/-- A string whose sign test succeeds starts with the minus sign and has an
unsigned-literal tail (when it is lexer-producible). -/
theorem parseNeg_shape (s : String) (h : parseFloat32Neg s = true) :
    ∃ rest, s.data = '-' :: rest := by
  unfold parseFloat32Neg at h
  rcases hd : s.data with _ | ⟨c, rest⟩
  · rw [hd] at h
    simp at h
  · rw [hd] at h
    by_cases hc : c = '-'
    · exact ⟨rest, by rw [hc]⟩
    · simp [hc] at h

/-- An unsigned literal never tests negative. -/
theorem parseNeg_unsigned (s : String) (h : isUnsignedLit s.data = true) :
    parseFloat32Neg s = false := by
  obtain ⟨c, cs, hd, hdig⟩ := unsignedLit_head s.data h
  unfold parseFloat32Neg
  rw [hd]
  simp [digit_ne_minus c hdig]


/-! ## lemmas: output shape -/

/-- Joining a one-element list of strings is that string. -/
theorem join_singleton (s : String) : String.join [s] = s := by
  apply String.ext
  simp [String.join]

/-- The generated program text is never empty: it ends with the fixed
footer. -/
theorem output_ne_empty (instrs : List instructions.Instruction)
    (o : List String) (d : Bool) : output instrs o d ≠ "" := by
  intro h
  have hlen := congrArg String.length h
  simp only [output, String.length_append] at hlen
  have hfoot : footerText.length = 1438 := by decide
  simp [hfoot] at hlen

/-- A successful `tokenize` is a successful loop followed by a passing
validation. -/
theorem tokenize_ok_iff (s : String) (ts : List token.Token) :
    tokenize s = .ok ts ↔
      tokenizeLoopF (s.data.length + 1) s.data [] = .ok ts ∧
        validate ts = none := by
  constructor
  · intro h
    unfold tokenize at h
    split at h
    · simp at h
    · rename_i ts' hloop
      split at h
      · simp at h
      · rename_i hval
        simp only [Except.ok.injEq] at h
        subst h
        exact ⟨hloop, hval⟩
  · rintro ⟨hloop, hval⟩
    unfold tokenize
    rw [hloop]
    simp [hval]

/-- A failing loop or validation makes `tokenize` fail. -/
theorem tokenize_error_of_validate (s : String) (ts : List token.Token)
    (e : String) (hloop : tokenizeLoopF (s.data.length + 1) s.data [] = .ok ts)
    (hval : validate ts = some e) : tokenize s = .error e := by
  unfold tokenize
  rw [hloop]
  simp [hval]

/-! ## claims -/

/-- C1: for each of the inputs `""`, `"+"` and `"3 5 $"`, `Compile` returns
an error and the returned program text is empty; in general, whenever
`Compile` returns an error the returned output string is empty, and whenever
it returns no error it returns the full assembly text generated from the
internal form. -/
theorem C1_compile_error_no_output :
    (∀ o d, (Compile "" o d).2.isSome = true ∧ (Compile "" o d).1 = "") ∧
    (∀ o d, (Compile "+" o d).2.isSome = true ∧ (Compile "+" o d).1 = "") ∧
    (∀ o d, (Compile "3 5 $" o d).2.isSome = true ∧
      (Compile "3 5 $" o d).1 = "") ∧
    (∀ s o d, (Compile s o d).2.isSome = true → (Compile s o d).1 = "") ∧
    (∀ s o d ts, tokenize s = .ok ts →
      Compile s o d = (output (makeinternalform ts) o d, none)) := by
  have h1 : tokenize "" = .error "The input expression was empty" := rfl
  have h2 : tokenize "+" =
      .error "we expected the program to begin with a numeric thing" := rfl
  have h3 : tokenize "3 5 $" =
      .error
        "Error parsing input; token.ERROR returned from the lexer: $" := rfl
  refine ⟨?_, ?_, ?_, ?_, ?_⟩
  · intro o d
    simp [Compile, h1]
  · intro o d
    simp [Compile, h2]
  · intro o d
    simp [Compile, h3]
  · intro s o d h
    unfold Compile at h ⊢
    rcases htok : tokenize s with e | ts
    · rfl
    · rw [htok] at h
      simp at h
  · intro s o d ts h
    unfold Compile
    rw [h]

/-- Witness for C1 at the concrete input `"3 5 $"`. -/
theorem C1_witness : (Compile "3 5 $" [] false).1 = "" :=
  C1_compile_error_no_output.2.2.2.1 "3 5 $" [] false (by decide)

/-- C2: whenever the lexed token list has more than one token and ends with
a NUMBER token, `Compile` fails and produces no output; a single-token
program consisting of one numeric literal is accepted and compiles to a
program whose body is exactly one Push block for that literal (the fixed
footer it is glued to prints the result). -/
theorem C2_trailing_number :
    (∀ (s : String) (ts : List token.Token) o d,
      tokenizeLoopF (s.data.length + 1) s.data [] = .ok ts →
      1 < ts.length →
      (∃ tl, ts.getLast? = some tl ∧ tl.typ = token.NUMBER) →
      (Compile s o d).1 = "" ∧ (Compile s o d).2.isSome = true) ∧
    (∀ (s : String) (t : token.Token) o d,
      tokenizeLoopF (s.data.length + 1) s.data [] = .ok [t] →
      t.typ = token.NUMBER →
      Compile s o d = (output [⟨instructions.Push, t.literal⟩] o d, none) ∧
      output [⟨instructions.Push, t.literal⟩] o d
        = headerPart1 ++ String.join (o.map constLine) ++ headerPart2
          ++ (if d then debugLines else "") ++ genPush t.literal
          ++ footerText) ∧
    strContains footerText "call printf" = true := by
  refine ⟨?_, ?_, by decide⟩
  · intro s ts o d hloop hlen hlast
    obtain ⟨tl, hl, htl⟩ := hlast
    have hval : ∃ e, validate ts = some e := by
      cases ts with
      | nil => simp at hlen
      | cons t rest =>
        by_cases h0 : t.typ = token.NUMBER
        · refine ⟨"program ends with a number, which is invalid", ?_⟩
          simp only [List.length_cons] at hlen
          simp [validate, h0, hlen, hl, htl]
        · exact ⟨"we expected the program to begin with a numeric thing",
            by simp [validate, h0]⟩
    obtain ⟨e, hval⟩ := hval
    have htok := tokenize_error_of_validate s ts e hloop hval
    simp [Compile, htok]
  · intro s t o d hloop ht
    have hval : validate [t] = none := by simp [validate, ht]
    have htok : tokenize s = .ok [t] :=
      (tokenize_ok_iff s [t]).mpr ⟨hloop, hval⟩
    have hmif : makeinternalform [t] = [⟨instructions.Push, t.literal⟩] := by
      simp [makeinternalform, instrOfToken, ht, token.NUMBER, token.ABS,
        token.ASTERISK, token.FACTORIAL, token.COS, token.DUP]
    constructor
    · simp only [Compile, htok]
      rw [hmif]
    · simp only [output, List.enum]
      rw [show (List.enumFrom 0 [(⟨instructions.Push, t.literal⟩ :
          instructions.Instruction)])
          = [(0, ⟨instructions.Push, t.literal⟩)] from rfl]
      simp only [List.map_cons, List.map_nil]
      rw [join_singleton]
      have hblock : genBlockFor 0 ⟨instructions.Push, t.literal⟩
          = genPush t.literal := by
        simp [genBlockFor, instructions.Push, instructions.Abs,
          instructions.Cos, instructions.Divide, instructions.Dup,
          instructions.Factorial, instructions.Minus, instructions.Modulus,
          instructions.Multiply, instructions.Plus, instructions.Power]
      rw [hblock]

/-- Witness for C2: `"3 4 5"` (three tokens, trailing NUMBER) is rejected
with empty output, and the single-literal program `"7"` compiles to push plus
print. -/
theorem C2_witness :
    (Compile "3 4 5" ["3", "4", "5"] false).1 = "" ∧
    Compile "7" ["7"] false
      = (output [⟨instructions.Push, "7"⟩] ["7"] false, none) :=
  ⟨(C2_trailing_number.1 "3 4 5" [⟨token.NUMBER, "3"⟩, ⟨token.NUMBER, "4"⟩,
      ⟨token.NUMBER, "5"⟩] ["3", "4", "5"] false (by decide) (by decide)
      ⟨⟨token.NUMBER, "5"⟩, by decide, by decide⟩).1,
   (C2_trailing_number.2.1 "7" ⟨token.NUMBER, "7"⟩ ["7"] false (by decide)
      (by decide)).1⟩

/-- C3: `Compile "3 0 /"` succeeds with non-empty assembly; the structural
validation looks only at token kinds, never at numeric values; and the
Divide block compares the divisor against zero and jumps to the shared
division-by-zero handler strictly before the division instruction (the block
splits into a guard part carrying `cmp rax,0` / `je division_by_zero` and a
rest carrying the `fdiv`, with no `fdiv` in the guard part). -/
theorem C3_div_zero_compiles :
    (∀ o d, (Compile "3 0 /" o d).2 = none ∧ (Compile "3 0 /" o d).1 ≠ "") ∧
    (∀ ts ts', ts.map token.Token.typ = ts'.map token.Token.typ →
      validate ts = validate ts') ∧
    genDivide = divCheckPart ++ divRestPart ∧
    strContains divCheckPart "cmp rax,0" = true ∧
    strContains divCheckPart "je division_by_zero" = true ∧
    strContains divRestPart "fdiv" = true ∧
    strContains divCheckPart "fdiv" = false := by
  have htok : tokenize "3 0 /" = .ok [⟨token.NUMBER, "3"⟩,
      ⟨token.NUMBER, "0"⟩, ⟨token.SLASH, "/"⟩] := rfl
  refine ⟨?_, validate_eq_of_map_typ, by decide, by decide, by decide,
    by decide, by decide⟩
  intro o d
  constructor
  · simp [Compile, htok]
  · simp only [Compile, htok]
    exact output_ne_empty _ o d

/-- Witness for C3's quantified validation part at concrete token lists. -/
theorem C3_witness :
    validate [⟨token.NUMBER, "3"⟩, ⟨token.NUMBER, "0"⟩, ⟨token.SLASH, "/"⟩]
      = validate [⟨token.NUMBER, "5"⟩, ⟨token.NUMBER, "7"⟩,
        ⟨token.SLASH, "/"⟩] ∧
    (Compile "3 0 /" ["3", "0"] false).2 = none :=
  ⟨C3_div_zero_compiles.2.1 _ _ (by decide),
   (C3_div_zero_compiles.1 ["3", "0"] false).1⟩


/-! ## lemmas: which token kinds the lexer can produce -/

/-- `readDecimal` always returns a NUMBER token. -/
theorem readDec_typ (l : LexState) : (readDec l).1.typ = token.NUMBER := by
  unfold readDec
  by_cases h : curCh (readNum l).2 = '.' && isDigitGo (peekCh (readNum l).2)
    <;> simp [h]

/-- The keyword table never yields the FACTORIAL kind: no factorial spelling
is a key, and unknown identifiers map to ERROR. -/
theorem lookup_ne_factorial (id : String) :
    token.LookupIdentifier id ≠ token.FACTORIAL := by
  unfold token.LookupIdentifier
  split_ifs <;> decide

/-- The lexer never emits a FACTORIAL token. -/
theorem nextTok_typ_ne_factorial (l : LexState) :
    (nextTok l).1.typ ≠ token.FACTORIAL := by
  rcases hsk : skipWS l with _ | ⟨c, cs⟩
  · simp only [nextTok, hsk]
    decide
  by_cases h1 : c = '+'
  · subst h1
    simp [nextTok, hsk]
    decide
  by_cases h2 : c = '%'
  · subst h2
    simp [nextTok, hsk]
    decide
  by_cases h3 : c = '^'
  · subst h3
    simp [nextTok, hsk]
    decide
  by_cases h4 : c = '-'
  · subst h4
    by_cases hd : isDigitGo (peekCh ('-' :: cs))
    · simp [nextTok, hsk, hd, readDec_typ]
      decide
    · simp [nextTok, hsk, hd]
      decide
  by_cases h5 : c = '/'
  · subst h5
    simp [nextTok, hsk]
    decide
  by_cases h6 : c = '*'
  · subst h6
    simp [nextTok, hsk]
    decide
  by_cases h7 : c = NULc
  · subst h7
    simp [nextTok, hsk, h1, h2, h3, h4, h5, h6]
    decide
  by_cases h8 : isDigitGo c
  · simp [nextTok, hsk, h1, h2, h3, h4, h5, h6, h7, h8, readDec_typ]
    decide
  · simp [nextTok, hsk, h1, h2, h3, h4, h5, h6, h7, h8]
    exact lookup_ne_factorial _

/-- No token of a successful `tokenize` has the FACTORIAL kind. -/
theorem tokenize_no_factorial (s : String) (ts : List token.Token)
    (h : tokenize s = .ok ts) : ∀ t ∈ ts, t.typ ≠ token.FACTORIAL := by
  refine tokenize_mem (fun t => t.typ ≠ token.FACTORIAL) ?_ s ts h
  intro l
  unfold rewriteTok
  by_cases hpi : (nextTok l).1.typ = token.PI
  · simp [hpi]
    decide
  by_cases he : (nextTok l).1.typ = token.E
  · simp [hpi, he]
    decide
  · simp only [hpi, he, if_false]
    exact nextTok_typ_ne_factorial l

/-! ## claims (continued) -/

/-- C8: PI and E tokens are rewritten to NUMBER tokens carrying the printed
values of pi and Euler's number during the tokenize loop, before validation
and instruction building: no PI or E token survives into the validated
program, `"pi"` and `"e"` lex to the single NUMBER literal, each compiles
successfully as a single-token program, and compiling them is
indistinguishable from compiling the literal the user could have typed. -/
theorem C8_pi_e_rewrite :
    (∀ s ts, tokenize s = .ok ts →
      ∀ t ∈ ts, t.typ ≠ token.PI ∧ t.typ ≠ token.E) ∧
    tokenize "pi" = .ok [⟨token.NUMBER, piLit⟩] ∧
    tokenize "e" = .ok [⟨token.NUMBER, eLit⟩] ∧
    (∀ o d, Compile "pi" o d = Compile piLit o d ∧
      (Compile "pi" o d).2 = none) ∧
    (∀ o d, Compile "e" o d = Compile eLit o d ∧
      (Compile "e" o d).2 = none) := by
  have hpi : tokenize "pi" = .ok [⟨token.NUMBER, piLit⟩] := rfl
  have he : tokenize "e" = .ok [⟨token.NUMBER, eLit⟩] := rfl
  have hpiL : tokenize piLit = .ok [⟨token.NUMBER, piLit⟩] := rfl
  have heL : tokenize eLit = .ok [⟨token.NUMBER, eLit⟩] := rfl
  have hpi' : tokenize "pi" = tokenize piLit := hpi.trans hpiL.symm
  have he' : tokenize "e" = tokenize eLit := he.trans heL.symm
  refine ⟨?_, hpi, he, ?_, ?_⟩
  · intro s ts h
    refine tokenize_mem _ ?_ s ts h
    intro l
    unfold rewriteTok
    by_cases h1 : (nextTok l).1.typ = token.PI
    · simp [h1]
      decide
    by_cases h2 : (nextTok l).1.typ = token.E
    · simp [h1, h2]
      decide
    · simp only [h1, h2, if_false]
      exact ⟨h1, h2⟩
  · intro o d
    exact ⟨Compile_eq_of_tokenize_eq _ _ o d hpi', by simp [Compile, hpi]⟩
  · intro o d
    exact ⟨Compile_eq_of_tokenize_eq _ _ o d he', by simp [Compile, he]⟩

/-- Witness for C8 at the program `"pi"` and a concrete order. -/
theorem C8_witness :
    Compile "pi" [piLit] false = Compile piLit [piLit] false ∧
    (∀ t ∈ [(⟨token.NUMBER, piLit⟩ : token.Token)],
      t.typ ≠ token.PI ∧ t.typ ≠ token.E) :=
  ⟨(C8_pi_e_rewrite.2.2.2.1 [piLit] false).1,
   C8_pi_e_rewrite.1 "pi" _ (by decide)⟩

/-- C9: no input can make the compiler emit a Factorial instruction: the
keyword table has no factorial spelling (every identifier lookup differs
from FACTORIAL), the lexer never emits a FACTORIAL token, the internal form
of every successfully tokenized program is Factorial-free, and the spellings
`"3 !"` and `"3 factorial"` are rejected outright as lexer errors. -/
theorem C9_factorial_unreachable :
    (∀ id, token.LookupIdentifier id ≠ token.FACTORIAL) ∧
    (∀ l, (nextTok l).1.typ ≠ token.FACTORIAL) ∧
    (∀ s ts, tokenize s = .ok ts →
      ∀ ins ∈ makeinternalform ts, ins.typ ≠ instructions.Factorial) ∧
    isOkE (tokenize "3 !") = false ∧
    isOkE (tokenize "3 factorial") = false := by
  refine ⟨lookup_ne_factorial, nextTok_typ_ne_factorial, ?_, rfl, rfl⟩
  intro s ts h ins hins
  obtain ⟨t, htmem, hsome⟩ := List.mem_filterMap.mp hins
  have ht := tokenize_no_factorial s ts h t htmem
  unfold instrOfToken at hsome
  by_cases h0 : t.typ = token.ABS
  · rw [if_pos h0] at hsome
    injection hsome with hv
    subst hv
    decide
  rw [if_neg h0] at hsome
  by_cases h1 : t.typ = token.ASTERISK
  · rw [if_pos h1] at hsome
    injection hsome with hv
    subst hv
    decide
  rw [if_neg h1] at hsome
  by_cases h2 : t.typ = token.FACTORIAL
  · exact absurd h2 ht
  rw [if_neg h2] at hsome
  by_cases h3 : t.typ = token.COS
  · rw [if_pos h3] at hsome
    injection hsome with hv
    subst hv
    decide
  rw [if_neg h3] at hsome
  by_cases h4 : t.typ = token.DUP
  · rw [if_pos h4] at hsome
    injection hsome with hv
    subst hv
    decide
  rw [if_neg h4] at hsome
  by_cases h5 : t.typ = token.NUMBER
  · rw [if_pos h5] at hsome
    injection hsome with hv
    subst hv
    exact fun hx =>
      absurd hx (show ¬(instructions.Push = instructions.Factorial) by decide)
  rw [if_neg h5] at hsome
  by_cases h6 : t.typ = token.MOD
  · rw [if_pos h6] at hsome
    injection hsome with hv
    subst hv
    decide
  rw [if_neg h6] at hsome
  by_cases h7 : t.typ = token.MINUS
  · rw [if_pos h7] at hsome
    injection hsome with hv
    subst hv
    decide
  rw [if_neg h7] at hsome
  by_cases h8 : t.typ = token.PLUS
  · rw [if_pos h8] at hsome
    injection hsome with hv
    subst hv
    decide
  rw [if_neg h8] at hsome
  by_cases h9 : t.typ = token.POWER
  · rw [if_pos h9] at hsome
    injection hsome with hv
    subst hv
    decide
  rw [if_neg h9] at hsome
  by_cases h10 : t.typ = token.SIN
  · rw [if_pos h10] at hsome
    injection hsome with hv
    subst hv
    decide
  rw [if_neg h10] at hsome
  by_cases h11 : t.typ = token.SLASH
  · rw [if_pos h11] at hsome
    injection hsome with hv
    subst hv
    decide
  rw [if_neg h11] at hsome
  by_cases h12 : t.typ = token.SQRT
  · rw [if_pos h12] at hsome
    injection hsome with hv
    subst hv
    decide
  rw [if_neg h12] at hsome
  by_cases h13 : t.typ = token.SWAP
  · rw [if_pos h13] at hsome
    injection hsome with hv
    subst hv
    decide
  rw [if_neg h13] at hsome
  by_cases h14 : t.typ = token.TAN
  · rw [if_pos h14] at hsome
    injection hsome with hv
    subst hv
    decide
  rw [if_neg h14] at hsome
  exact absurd hsome (by simp)

/-- Witness for C9 at the concrete program `"3 4 +"`. -/
theorem C9_witness :
    ∀ ins ∈ makeinternalform [⟨token.NUMBER, "3"⟩, ⟨token.NUMBER, "4"⟩,
      ⟨token.PLUS, "+"⟩], ins.typ ≠ instructions.Factorial :=
  C9_factorial_unreachable.2.2.1 "3 4 +" _ (by decide)

/-- C10: after reading a `'-'`-signed numeric literal, `NextToken`
unconditionally performs one more `readChar`, so the character immediately
following the literal is consumed and never reaches a later token: lexing
`"-3+"` yields only the NUMBER token `-3` (the PLUS is swallowed), while the
whitespace-separated `"-3 +"` is unaffected (the swallowed character is the
blank). -/
theorem C10_signed_literal_swallow :
    (∀ l cs, skipWS l = '-' :: cs → isDigitGo (peekCh ('-' :: cs)) = true →
      (nextTok l).2 = (readDec cs).2.drop 1) ∧
    rawTokens "-3+" = [⟨token.NUMBER, "-3"⟩] ∧
    rawTokens "-3 +" = [⟨token.NUMBER, "-3"⟩, ⟨token.PLUS, "+"⟩] := by
  refine ⟨?_, by decide, by decide⟩
  intro l cs hsk hd
  simp [nextTok, hsk, hd]

/-- Witness for C10 on the concrete input `"-3+"`. -/
theorem C10_witness : (nextTok "-3+".data).2 = (readDec ['3', '+']).2.drop 1 :=
  C10_signed_literal_swallow.1 "-3+".data ['3', '+'] rfl (by decide)


/-! ## lemmas: the shape of lexed numeric literals -/

/-- `takeWhile` passes over a block of satisfying elements. -/
theorem takeWhile_all_append (p : Char → Bool) (A B : List Char)
    (h : ∀ a ∈ A, p a = true) :
    (A ++ B).takeWhile p = A ++ B.takeWhile p := by
  induction A with
  | nil => simp
  | cons a as ih =>
    have ha := h a (by simp)
    simp only [List.cons_append, List.takeWhile_cons, ha, if_true]
    rw [ih (fun x hx => h x (by simp [hx]))]

/-- `dropWhile` passes over a block of satisfying elements. -/
theorem dropWhile_all_append (p : Char → Bool) (A B : List Char)
    (h : ∀ a ∈ A, p a = true) :
    (A ++ B).dropWhile p = B.dropWhile p := by
  induction A with
  | nil => simp
  | cons a as ih =>
    have ha := h a (by simp)
    simp only [List.cons_append, List.dropWhile_cons, ha, if_true]
    exact ih (fun x hx => h x (by simp [hx]))

/-- A list of satisfying elements is its own `takeWhile`. -/
theorem takeWhile_eq_self_of_all (p : Char → Bool) (A : List Char)
    (h : ∀ a ∈ A, p a = true) : A.takeWhile p = A := by
  have := takeWhile_all_append p A [] h
  simpa using this

/-- `dropWhile` drops a whole list of satisfying elements. -/
theorem dropWhile_eq_nil_of_all (p : Char → Bool) (A : List Char)
    (h : ∀ a ∈ A, p a = true) : A.dropWhile p = [] := by
  have := dropWhile_all_append p A [] h
  simpa using this

/-- `readNumber` returns exactly the leading digit block and the rest. -/
theorem readNum_eq (l : LexState) :
    readNum l = (String.mk (l.takeWhile (fun c => isDigitGo c)),
      l.dropWhile (fun c => isDigitGo c)) := by
  induction l with
  | nil => rfl
  | cons c cs ih =>
    by_cases h : isDigitGo c
    · simp only [readNum, h, if_true, ih, List.takeWhile_cons,
        List.dropWhile_cons]
      refine Prod.ext ?_ (by simp [h])
      apply String.ext
      simp [h, String.data_append, String.singleton]
    · simp [readNum, h, List.takeWhile_cons, List.dropWhile_cons]

/-- The digit block of an unsigned literal: `unsignedParts` accepts a
nonempty digit list. -/
theorem unsignedParts_digits (A : List Char) (hne : A ≠ [])
    (h : ∀ a ∈ A, isDigitGo a = true) : unsignedParts A = some (A, []) := by
  unfold unsignedParts
  rw [takeWhile_eq_self_of_all _ A h, dropWhile_eq_nil_of_all _ A h]
  simp [hne]

/-- `unsignedParts` accepts digits, a period and more digits. -/
theorem unsignedParts_digits_dot (A B : List Char) (hA : A ≠ [])
    (hB : B ≠ []) (hdA : ∀ a ∈ A, isDigitGo a = true)
    (hdB : ∀ a ∈ B, isDigitGo a = true) :
    unsignedParts (A ++ '.' :: B) = some (A, B) := by
  unfold unsignedParts
  rw [takeWhile_all_append _ A ('.' :: B) hdA,
    dropWhile_all_append _ A ('.' :: B) hdA]
  have hdot : isDigitGo '.' = false := by decide
  simp only [List.takeWhile_cons, List.dropWhile_cons, hdot,
    Bool.false_eq_true, if_false, List.append_nil]
  have hAe : A.isEmpty = false := by
    cases A with
    | nil => exact absurd rfl hA
    | cons x xs => rfl
  have hBe : B.isEmpty = false := by
    cases B with
    | nil => exact absurd rfl hB
    | cons x xs => rfl
  have hBall : B.all (fun c => isDigitGo c) = true :=
    List.all_eq_true.mpr hdB
  simp [hAe, hBe, hBall]

/-- The literal `readDecimal` produces when it starts at a digit is a
well-formed unsigned literal. -/
theorem readDec_lit_shape (l : LexState) (h : isDigitGo (curCh l) = true) :
    isUnsignedLit ((readDec l).1.literal).data = true := by
  rcases l with _ | ⟨c, cs⟩
  · exact absurd (by simpa [curCh] using h) (by decide)
  simp only [curCh, List.headD] at h
  have hAne : (c :: cs).takeWhile (fun c => isDigitGo c) ≠ [] := by
    simp [List.takeWhile_cons, h]
  have hAdig : ∀ a ∈ (c :: cs).takeWhile (fun c => isDigitGo c),
      isDigitGo a = true := fun a ha => List.mem_takeWhile_imp ha
  unfold readDec
  rw [readNum_eq (c :: cs)]
  dsimp only
  set A := (c :: cs).takeWhile (fun c => isDigitGo c) with hA
  set R := (c :: cs).dropWhile (fun c => isDigitGo c) with hR
  by_cases hb : curCh R = '.' && isDigitGo (peekCh R)
  · rw [if_pos hb]
    simp only [Bool.and_eq_true, decide_eq_true_eq] at hb
    obtain ⟨hdot, hpk⟩ := hb
    rcases hRs : R with _ | ⟨r0, r2⟩
    · rw [hRs] at hdot
      simp [curCh] at hdot
      exact absurd hdot.symm (by decide)
    have hr0 : r0 = '.' := by
      rw [hRs] at hdot
      simpa [curCh] using hdot
    subst hr0
    rcases hr2 : r2 with _ | ⟨b0, r3⟩
    · rw [hRs, hr2] at hpk
      simp [peekCh] at hpk
      exact absurd hpk (by decide)
    have hb0 : isDigitGo b0 = true := by
      rw [hRs, hr2] at hpk
      simpa [peekCh] using hpk
    simp only [List.drop_succ_cons, List.drop_zero]
    rw [readNum_eq (b0 :: r3)]
    dsimp only
    set B := (b0 :: r3).takeWhile (fun c => isDigitGo c) with hB
    have hBne : B ≠ [] := by
      rw [hB]
      simp [List.takeWhile_cons, hb0]
    have hBdig : ∀ a ∈ B, isDigitGo a = true :=
      fun a ha => List.mem_takeWhile_imp ha
    have hdata : ((String.mk A ++ "." ++ String.mk B) : String).data
        = A ++ '.' :: B := by
      simp [String.data_append]
    rw [isUnsignedLit]
    simp only [hdata]
    rw [unsignedParts_digits_dot A B hAne hBne hAdig hBdig]
    rfl
  · rw [if_neg hb]
    rw [isUnsignedLit]
    simp only []
    rw [unsignedParts_digits A hAne hAdig]
    rfl

/-- C7: when the current character (after whitespace skipping) is `'-'` and
the next one is a digit, `NextToken` returns a single NUMBER token whose
literal is `'-'` followed by the matched numeric literal (digits with an
optional fraction); when the next character is not a digit it returns the
MINUS operator token. -/
theorem C7_minus_disambiguation :
    ∀ l cs, skipWS l = '-' :: cs →
      (isDigitGo (peekCh ('-' :: cs)) = true →
        (nextTok l).1.typ = token.NUMBER ∧
        (nextTok l).1.literal = "-" ++ (readDec cs).1.literal ∧
        isUnsignedLit ((readDec cs).1.literal).data = true) ∧
      (isDigitGo (peekCh ('-' :: cs)) = false →
        (nextTok l).1 = ⟨token.MINUS, "-"⟩) := by
  intro l cs hsk
  constructor
  · intro hd
    have hshape : isUnsignedLit ((readDec cs).1.literal).data = true := by
      apply readDec_lit_shape
      simpa [peekCh, curCh] using hd
    refine ⟨?_, ?_, hshape⟩
    · simp [nextTok, hsk, hd, readDec_typ]
    · simp [nextTok, hsk, hd]
  · intro hd
    simp [nextTok, hsk, hd, newToken, token.MINUS]
    decide

/-- Witness for C7 at the inputs `"-3.5"` and `"- 3"`. -/
theorem C7_witness :
    ((nextTok "-3.5".data).1.typ = token.NUMBER ∧
      (nextTok "-3.5".data).1.literal = "-" ++ (readDec ['3', '.', '5']).1.literal ∧
      isUnsignedLit ((readDec ['3', '.', '5']).1.literal).data = true) ∧
    (nextTok "- 3".data).1 = ⟨token.MINUS, "-"⟩ :=
  ⟨(C7_minus_disambiguation "-3.5".data ['3', '.', '5'] rfl).1 (by decide),
   (C7_minus_disambiguation "- 3".data [' ', '3'] rfl).2 (by decide)⟩


/-- C4 counterexample: both `["3", "4"]` and `["4", "3"]` are legal
enumeration orders of the constant map built for `"3 4 +"` (a Go map is
unordered), and the two orders give different output bytes, so two calls of
`Compile` on the same string need not be byte-identical. -/
theorem C4_counterexample :
    List.Perm ["3", "4"] (constantsOfExpr "3 4 +") ∧
    List.Perm ["4", "3"] (constantsOfExpr "3 4 +") ∧
    Compile "3 4 +" ["3", "4"] false ≠ Compile "3 4 +" ["4", "3"] false := by
  have hc : constantsOfExpr "3 4 +" = ["3", "4"] := rfl
  refine ⟨by rw [hc], by rw [hc]; decide, by decide⟩

/-- C4 amended: two compiles of the same expression agree whenever the
constant map is enumerated in the same order both times; in particular, when
the expression has at most one distinct constant the output is byte-identical
for every pair of legal enumeration orders, and in general the two outputs
differ at most in the order of the constant-pool lines — the fixed header,
the debug lines, the instruction body (with its label numbering) and the
footer do not depend on the enumeration order. -/
theorem C4_amended :
    (∀ s o₁ o₂ d, List.Perm o₁ (constantsOfExpr s) →
      List.Perm o₂ (constantsOfExpr s) → (constantsOfExpr s).length ≤ 1 →
      Compile s o₁ d = Compile s o₂ d) ∧
    (∀ s ts o d, tokenize s = .ok ts →
      (Compile s o d).1 = headerPart1 ++ String.join (o.map constLine)
        ++ (headerPart2 ++ (if d then debugLines else "")
          ++ String.join (((makeinternalform ts).enum).map
              (fun p => genBlockFor p.1 p.2)) ++ footerText)) := by
  constructor
  · intro s o₁ o₂ d h₁ h₂ hlen
    have ho : o₁ = o₂ := by
      rcases hc : constantsOfExpr s with _ | ⟨x, rest⟩
      · rw [hc] at h₁ h₂
        rw [List.perm_nil.mp h₁, List.perm_nil.mp h₂]
      · rcases rest with _ | ⟨y, r2⟩
        · rw [hc] at h₁ h₂
          rw [List.perm_singleton.mp h₁, List.perm_singleton.mp h₂]
        · rw [hc] at hlen
          simp at hlen
    rw [ho]
  · intro s ts o d htok
    simp only [Compile, htok, output]
    simp [String.append_assoc]

/-- Witness for C4's amended statement at `"3 3 +"`, whose pool has the
single constant `3`. -/
theorem C4_amended_witness :
    Compile "3 3 +" ["3"] false = Compile "3 3 +" ["3"] false :=
  C4_amended.1 "3 3 +" ["3"] ["3"] false (by rw [show constantsOfExpr "3 3 +"
    = ["3"] from rfl]) (by rw [show constantsOfExpr "3 3 +" = ["3"]
    from rfl]) (by rw [show constantsOfExpr "3 3 +" = ["3"] from rfl]; decide)


/-! ## lemmas: escape collisions -/

/-- Cleaning ignores a leading minus sign. -/
theorem cleanData_minus (u : List Char) : cleanData ('-' :: u) = cleanData u := by
  simp [cleanData]

/-- The cleaned text of an unsigned literal is its period-renamed text. -/
theorem cleanData_unsigned (l : List Char) (h : isUnsignedLit l = true) :
    cleanData l = l.map (fun c => if c = '.' then '_' else c) :=
  cleanData_lit l (unsignedLit_chars l h)

/-- Two unsigned literals with equal cleaned text are equal. -/
theorem cleanData_unsigned_inj (l₁ l₂ : List Char)
    (h₁ : isUnsignedLit l₁ = true) (h₂ : isUnsignedLit l₂ = true)
    (h : cleanData l₁ = cleanData l₂) : l₁ = l₂ := by
  rw [cleanData_unsigned l₁ h₁, cleanData_unsigned l₂ h₂] at h
  exact mapDot_inj l₁ l₂ (unsignedLit_chars l₁ h₁) (unsignedLit_chars l₂ h₂) h

/-- A lexer-producible literal is an unsigned literal or a minus-signed
unsigned literal. -/
theorem lexLit_cases (s : String) (h : isLexNumLit s = true) :
    (∃ u, s.data = '-' :: u ∧ isUnsignedLit u = true) ∨
      isUnsignedLit s.data = true := by
  unfold isLexNumLit at h
  split at h
  · simp at h
  · rename_i c rest hd
    by_cases hc : c = '-'
    · subst hc
      rw [if_pos rfl] at h
      exact Or.inl ⟨rest, hd, h⟩
    · rw [if_neg hc] at h
      exact Or.inr (hd ▸ h)

/-- The cleaned text of a lexer-producible literal starts with a digit. -/
theorem cleanData_head_digit (s : String) (h : isLexNumLit s = true) :
    ∃ d ds, cleanData s.data = d :: ds ∧ isDigitGo d = true := by
  rcases lexLit_cases s h with ⟨u, hdat, hu⟩ | hu
  · obtain ⟨c, cs, hcs, hdig⟩ := unsignedLit_head u hu
    refine ⟨c, cs.map (fun c => if c = '.' then '_' else c), ?_, hdig⟩
    rw [hdat, cleanData_minus, hcs, cleanData_unsigned _ (hcs ▸ hu)]
    simp [digit_ne_dot c hdig]
  · obtain ⟨c, cs, hcs, hdig⟩ := unsignedLit_head s.data hu
    refine ⟨c, cs.map (fun c => if c = '.' then '_' else c), ?_, hdig⟩
    rw [hcs, cleanData_unsigned _ (hcs ▸ hu)]
    simp [digit_ne_dot c hdig]

/-- The data of `escapeConstant`: chosen prefix, then cleaned literal. -/
theorem escapeConstant_data (s : String) : (escapeConstant s).data =
    (if parseFloat32Neg s then "const_neg_" else "const_").data
      ++ cleanData s.data := by
  rw [escapeConstant_eq]
  by_cases h : parseFloat32Neg s <;> simp [h, String.data_append]

/-- A literal that parses negative and one that does not never share an
escaped symbol, as long as both are lexer-producible. -/
theorem escape_mixed_ne (a b : String) (hlb : isLexNumLit b = true)
    (ha : parseFloat32Neg a = true) (hb : parseFloat32Neg b = false) :
    escapeConstant a ≠ escapeConstant b := by
  intro heq
  have hd := congrArg String.data heq
  rw [escapeConstant_data, escapeConstant_data, ha, hb] at hd
  simp only [if_true, Bool.false_eq_true, if_false] at hd
  have hsplit : (['c', 'o', 'n', 's', 't', '_', 'n', 'e', 'g', '_']
      : List Char) = ['c', 'o', 'n', 's', 't', '_'] ++ ['n', 'e', 'g', '_'] :=
    by decide
  rw [hsplit, List.append_assoc] at hd
  have hd2 := List.append_cancel_left hd
  obtain ⟨d, ds, hcb, hdig⟩ := cleanData_head_digit b hlb
  rw [hcb] at hd2
  have hdn : d = 'n' := by
    have hh := congrArg (fun l => l.headD ' ') hd2
    simpa using hh.symm
  rw [hdn] at hdig
  exact absurd hdig (by decide)

/-- C5 counterexample: `-0` and `0` are two distinct lexer-producible
literals (the lexer really produces the NUMBER token `-0`), yet both escape
to the symbol `const_0`: `ParseFloat` parses `-0` to negative zero, which is
not `< 0`, so no `neg` marker is added, and the minus sign is then deleted. -/
theorem C5_counterexample :
    isLexNumLit "-0" = true ∧ isLexNumLit "0" = true ∧ "-0" ≠ "0" ∧
    escapeConstant "-0" = escapeConstant "0" ∧
    escapeConstant "-0" = "const_0" ∧
    (nextTok "-0".data).1 = ⟨token.NUMBER, "-0"⟩ := by
  refine ⟨by decide, by decide, by decide, by decide, by decide, rfl⟩

/-- C5 amended: `escapeConstant` never leaves a `'.'` or `'-'` in the
symbol; a literal that parses to a negative value gets the `const_neg_`
marker, and its symbol differs from that of every lexer-producible literal
that does not parse negative; and two distinct lexer-producible literals
escape to the same symbol only in the one remaining case: a `'-'`-signed
literal whose value does not parse negative (a negative zero such as `-0`,
whose magnitude rounds to float32 zero) collides with its unsigned
counterpart. -/
theorem C5_escape_injective_amended :
    (∀ s, ∀ c ∈ (escapeConstant s).data, c ≠ '.' ∧ c ≠ '-') ∧
    (∀ a, parseFloat32Neg a = true →
      ∃ r, escapeConstant a = "const_neg_" ++ r) ∧
    (∀ a b, isLexNumLit a = true → isLexNumLit b = true →
      parseFloat32Neg a = true → parseFloat32Neg b = false →
      escapeConstant a ≠ escapeConstant b) ∧
    (∀ a b, isLexNumLit a = true → isLexNumLit b = true → a ≠ b →
      escapeConstant a = escapeConstant b →
      (a = "-" ++ b ∧ parseFloat32Neg a = false) ∨
      (b = "-" ++ a ∧ parseFloat32Neg b = false)) := by
  refine ⟨?_, ?_, ?_, ?_⟩
  · intro s c hc
    rw [escapeConstant_data] at hc
    rcases List.mem_append.mp hc with h | h
    · constructor <;> intro he <;> subst he <;>
        revert h <;> by_cases hps : parseFloat32Neg s <;> simp [hps]
    · unfold cleanData at h
      rcases List.mem_filter.mp h with ⟨hmap, hne⟩
      constructor
      · rcases List.mem_map.mp hmap with ⟨c', _, hc'⟩
        intro he
        subst he
        by_cases hdot : c' = '.'
        · rw [if_pos hdot] at hc'
          exact absurd hc' (by decide)
        · rw [if_neg hdot] at hc'
          exact hdot hc'
      · simpa using hne
  · intro a ha
    exact ⟨String.mk (cleanData a.data), by rw [escapeConstant_eq, ha]; rfl⟩
  · intro a b _ hlb ha hb
    exact escape_mixed_ne a b hlb ha hb
  · intro a b hla hlb hne heq
    by_cases ha : parseFloat32Neg a
    · by_cases hb : parseFloat32Neg b
      · exfalso
        have hd := congrArg String.data heq
        rw [escapeConstant_data, escapeConstant_data, ha, hb] at hd
        simp only [if_true] at hd
        have hclean := List.append_cancel_left hd
        obtain ⟨u, hau, huu⟩ | hau :=
          lexLit_cases a hla
        · obtain ⟨v, hbv, hvv⟩ | hbv := lexLit_cases b hlb
          · rw [hau, hbv, cleanData_minus, cleanData_minus] at hclean
            have := cleanData_unsigned_inj u v huu hvv hclean
            apply hne
            apply String.ext
            rw [hau, hbv, this]
          · exact absurd (parseNeg_unsigned b hbv) (by simp [hb])
        · exact absurd (parseNeg_unsigned a hau) (by simp [ha])
      · exact absurd heq (escape_mixed_ne a b hlb ha (by simpa using hb))
    · by_cases hb : parseFloat32Neg b
      · exact absurd heq.symm (escape_mixed_ne b a hla hb (by simpa using ha))
      · have ha' : parseFloat32Neg a = false := by simpa using ha
        have hb' : parseFloat32Neg b = false := by simpa using hb
        have hd := congrArg String.data heq
        rw [escapeConstant_data, escapeConstant_data, ha', hb'] at hd
        simp only [Bool.false_eq_true, if_false] at hd
        have hclean := List.append_cancel_left hd
        obtain ⟨u, hau, huu⟩ | hau := lexLit_cases a hla
        · obtain ⟨v, hbv, hvv⟩ | hbv := lexLit_cases b hlb
          · exfalso
            rw [hau, hbv, cleanData_minus, cleanData_minus] at hclean
            have := cleanData_unsigned_inj u v huu hvv hclean
            apply hne
            apply String.ext
            rw [hau, hbv, this]
          · left
            rw [hau, cleanData_minus] at hclean
            have := cleanData_unsigned_inj u b.data huu hbv hclean
            refine ⟨?_, ha'⟩
            apply String.ext
            rw [hau, this]
            rfl
        · obtain ⟨v, hbv, hvv⟩ | hbv := lexLit_cases b hlb
          · right
            rw [hbv, cleanData_minus] at hclean
            have := cleanData_unsigned_inj a.data v hau hvv hclean
            refine ⟨?_, hb'⟩
            apply String.ext
            rw [hbv, ← this]
            rfl
          · exfalso
            have := cleanData_unsigned_inj a.data b.data hau hbv hclean
            exact hne (String.ext this)

/-- Witness for C5's amended statement: the escaped symbol of `-3.5` starts
with the `neg` marker and differs from the symbol of `3.5`, and the only
collision pattern is realised by the pair `-0` / `0`. -/
theorem C5_amended_witness :
    (∃ r, escapeConstant "-3.5" = "const_neg_" ++ r) ∧
    escapeConstant "-3.5" ≠ escapeConstant "3.5" ∧
    (("-0" : String) = "-" ++ "0" ∧ parseFloat32Neg "-0" = false) ∨
    (("0" : String) = "-" ++ "-0" ∧ parseFloat32Neg "0" = false) :=
  Or.inl ⟨C5_escape_injective_amended.2.1 "-3.5" (by decide),
    C5_escape_injective_amended.2.2.1 "-3.5" "3.5" (by decide) (by decide)
      (by decide) (by decide),
    (C5_escape_injective_amended.2.2.2 "-0" "0" (by decide) (by decide)
      (by decide) (by decide)).resolve_right
      (fun h => by simpa using congrArg String.data h.1)⟩


/-- C6: every label defined inside a Power or Factorial code block carries
the instruction's position index as suffix — each of the listed labels
occurs as a label definition `label:` in the emitted block, the extraction
of label-definition lines from a generated block yields exactly the listed
labels (checked at a concrete index), and for two distinct positions the
label sets of any two Power/Factorial blocks are disjoint. -/
theorem C6_label_uniqueness :
    (∀ i, ∀ lb ∈ powerLabels i, ∃ p q, genPower i = p ++ (lb ++ ":") ++ q) ∧
    (∀ i, ∀ lb ∈ factorialLabels i,
      ∃ p q, genFactorial i = p ++ (lb ++ ":") ++ q) ∧
    extractLabelDefs (genPower 5) = powerLabels 5 ∧
    extractLabelDefs (genFactorial 5) = factorialLabels 5 ∧
    (∀ i j, i ≠ j →
      List.Disjoint (powerLabels i ++ factorialLabels i)
        (powerLabels j ++ factorialLabels j)) := by
  have e2 : powSeg2 = powSeg2a ++ "none_zero_" := by decide
  have e3 : powSeg3 = ":" ++ powSeg3b := by decide
  have e5 : powSeg5 = powSeg5a ++ "none_one_" := by decide
  have e6 : powSeg6 = ":" ++ powSeg6b := by decide
  have e6a : powSeg6 = powSeg6a ++ "again_" := by decide
  have e7 : powSeg7 = ":" ++ powSeg7b := by decide
  have e8 : powSeg8 = powSeg8a ++ "store_value_" := by decide
  have e9 : powSeg9 = ":" ++ powSeg9b := by decide
  have f2 : factSeg2 = factSeg2a ++ "again_" := by decide
  have f3 : factSeg3 = ":" ++ factSeg3b := by decide
  have f4 : factSeg4 = factSeg4a ++ "store_result_" := by decide
  have f5 : factSeg5 = ":" ++ factSeg5b := by decide
  refine ⟨?_, ?_, by decide, by decide, ?_⟩
  · intro i lb hlb
    simp only [powerLabels, List.mem_cons, List.not_mem_nil, or_false]
      at hlb
    rcases hlb with rfl | rfl | rfl | rfl
    · refine ⟨powSeg0 ++ goItoa i ++ powSeg1 ++ goItoa i ++ powSeg2a,
        powSeg3b ++ goItoa i ++ powSeg4 ++ goItoa i ++ powSeg5 ++ goItoa i
          ++ powSeg6 ++ goItoa i ++ powSeg7 ++ goItoa i ++ powSeg8
          ++ goItoa i ++ powSeg9, ?_⟩
      rw [genPower, e2, e3]
      simp [String.append_assoc]
    · refine ⟨powSeg0 ++ goItoa i ++ powSeg1 ++ goItoa i ++ powSeg2
          ++ goItoa i ++ powSeg3 ++ goItoa i ++ powSeg4 ++ goItoa i
          ++ powSeg5a,
        powSeg6b ++ goItoa i ++ powSeg7 ++ goItoa i ++ powSeg8 ++ goItoa i
          ++ powSeg9, ?_⟩
      rw [genPower, e5, e6]
      simp [String.append_assoc]
    · refine ⟨powSeg0 ++ goItoa i ++ powSeg1 ++ goItoa i ++ powSeg2
          ++ goItoa i ++ powSeg3 ++ goItoa i ++ powSeg4 ++ goItoa i
          ++ powSeg5 ++ goItoa i ++ powSeg6a,
        powSeg7b ++ goItoa i ++ powSeg8 ++ goItoa i ++ powSeg9, ?_⟩
      rw [genPower, e6a, e7]
      simp [String.append_assoc]
    · refine ⟨powSeg0 ++ goItoa i ++ powSeg1 ++ goItoa i ++ powSeg2
          ++ goItoa i ++ powSeg3 ++ goItoa i ++ powSeg4 ++ goItoa i
          ++ powSeg5 ++ goItoa i ++ powSeg6 ++ goItoa i ++ powSeg7
          ++ goItoa i ++ powSeg8a, powSeg9b, ?_⟩
      rw [genPower, e8, e9]
      simp [String.append_assoc]
  · intro i lb hlb
    simp only [factorialLabels, List.mem_cons, List.not_mem_nil, or_false]
      at hlb
    rcases hlb with rfl | rfl
    · refine ⟨factSeg0 ++ goItoa i ++ factSeg1 ++ goItoa i ++ factSeg2a,
        factSeg3b ++ goItoa i ++ factSeg4 ++ goItoa i ++ factSeg5, ?_⟩
      rw [genFactorial, f2, f3]
      simp [String.append_assoc]
    · refine ⟨factSeg0 ++ goItoa i ++ factSeg1 ++ goItoa i ++ factSeg2
          ++ goItoa i ++ factSeg3 ++ goItoa i ++ factSeg4a, factSeg5b, ?_⟩
      rw [genFactorial, f4, f5]
      simp [String.append_assoc]
  · intro i j hij a ha hb
    have hgi : ∀ m n : Nat, goItoa m = goItoa n → m = n := goItoa_inj
    simp only [powerLabels, factorialLabels, List.mem_append, List.mem_cons,
      List.not_mem_nil, or_false] at ha hb
    rcases ha with (rfl | rfl | rfl | rfl) | (rfl | rfl) <;>
      rcases hb with (h | h | h | h) | (h | h) <;>
      first
        | exact hij (hgi i j (append_left_inj _ _ _ h))
        | exact append_ne_of_nth _ _ _ _ 0 (by decide) (by decide)
            (by decide) h
        | exact append_ne_of_nth _ _ _ _ 5 (by decide) (by decide)
            (by decide) h
        | exact append_ne_of_nth _ _ _ _ 6 (by decide) (by decide)
            (by decide) h

/-- Witness for C6: the `again` label of a Power block at position 0 occurs
in its text, and positions 0 and 1 have disjoint label sets. -/
theorem C6_witness :
    (∃ p q, genPower 0 = p ++ ("again_" ++ goItoa 0 ++ ":") ++ q) ∧
    List.Disjoint (powerLabels 0 ++ factorialLabels 0)
      (powerLabels 1 ++ factorialLabels 1) :=
  ⟨C6_label_uniqueness.1 0 ("again_" ++ goItoa 0) (by decide),
   C6_label_uniqueness.2.2.2.2 0 1 (by decide)⟩

end MathCompiler
